import Mathlib

/-!
The parse-and-merge pipeline of database-tools.

A shallow embedding of `readers/file.go`, `internal/datafile.go` and
`cmd/generate/parsers.go`.

Go strings and byte slices are lists of characters.  The operating system is a
value of type `World` (a table of absolute paths plus the process working
directory); `os.Chdir` returns the changed world.  Functions that can run
forever take a `fuel` argument and return `none` when it runs out.
-/

namespace DatabaseTools

/-- Go `string` / `[]byte`. -/
abbrev Text := List Char

/-- Go `error` values that occur in the program. -/
inductive Err where
  /-- Go's `*PathError` with ENOENT (the only error `os.IsNotExist` accepts here). -/
  | notExist (op : Text) (path : Text)
  /-- Go's `*PathError` with ENOTDIR. -/
  | notDir (op : Text) (path : Text)
  /-- Go's `*PathError` with EISDIR (reading from an opened directory). -/
  | isDir (op : Text) (path : Text)
  /-- Go's `os.ErrInvalid`: an operation on a nil `*os.File`. -/
  | invalid
  /-- Go's `io.EOF`. -/
  | eof
  /-- An error of `json.Unmarshal`. -/
  | json (msg : Text)
  /-- A failed system call, `*os.SyscallError` (`getwd: file name too long`). -/
  | syscall (op : Text) (errno : Text)
  /-- Go's `fmt.Errorf("<msg>: %v", cause)` and `errors.Wrapf(cause, "<msg>")`. -/
  | wrapped (msg : Text) (cause : Err)
  deriving DecidableEq, Repr

/-- Go's `os.IsNotExist`. -/
def IsNotExist : Err → Bool
  | .notExist _ _ => true
  | _ => false

/-- Go's `errors.Is(err, io.EOF)` for the errors a reader hands out. -/
def IsEOF : Err → Bool
  | .eof => true
  | _ => false

/-! ## readers/file.go -/

/-- An `io.Reader` behind a `bufio.Reader`: the bytes still to be delivered and
what a read answers once they are used up (`none`: `io.EOF`). -/
structure Reader where
  data : Text
  fail : Option Err := none
  deriving DecidableEq, Repr

/-- Scan up to and including the first `delim`; the second component is the
rest of the input, or `none` when the input ended before a `delim` was seen. -/
def readUntil (delim : Char) : Text → Text × Option Text
  | [] => ([], none)
  | c :: cs =>
    if c = delim then ([c], some cs)
    else ((c :: (readUntil delim cs).1), (readUntil delim cs).2)

/-- Go's `(*bufio.Reader).ReadString`: the text up to and including the delimiter;
when the input ends first, the text read so far together with the error. -/
def ReadString (r : Reader) (delim : Char) : Text × Option Err × Reader :=
  match readUntil delim r.data with
  | (line, some rest) => (line, none, { r with data := rest })
  | (line, none) => (line, some (r.fail.getD Err.eof), { r with data := [] })

/-- Go's `strings.TrimSuffix`. -/
def TrimSuffix (s suffix : Text) : Text :=
  if suffix.isSuffixOf s then s.take (s.length - suffix.length) else s

/-- The `if err != nil` block after each read of `ReadTextualData`:
end-of-stream is turned into `nil`, any other error gets the context `msg`. -/
def afterRead (msg filename : Text) : Option Err → Option Err
  | none => none
  | some e => if IsEOF e then none else some (Err.wrapped (msg ++ filename) e)

/-- The program's `ReadTextualData` reads header and content from file.  The result is the
triple of Go's named results `(header, content, err)`. -/
def ReadTextualData (file : Reader) (filename : Text) : Text × Text × Option Err :=
  let reader := file
  match ReadString reader '\n' with
  | (header, err, reader) =>
    match afterRead "read header (line 1) from file ".toList filename err with
    | some e => (header, [], some e)
    | none =>
      let header := TrimSuffix header ['\n']
      match ReadString reader '\n' with
      | (_, err, reader) =>
        match afterRead "read 3-slash divider (line 2) from file ".toList filename err with
        | some e => (header, [], some e)
        | none =>
          match ReadString reader '\n' with
          | (content, err, _) =>
            match afterRead "read content (line 3) from file ".toList filename err with
            | some e => (header, content, some e)
            | none => (header, TrimSuffix content ['\n'], none)

/-- Line `k` (counted from 0) of a text, as the specification words it: the
text is cut at every newline, and a line the text does not have is empty. -/
def lineOf (data : Text) (k : Nat) : Text :=
  (data.splitOn '\n').getD k []

/-! ## The operating system, as far as the program uses it -/

/-- An absolute path, as its list of components below `/`. -/
abbrev Path := List Text

/-- What a path names: a regular file with its content, or a directory. -/
inductive Entry where
  | file (content : Text)
  | dir
  deriving DecidableEq, Repr

/-- The file tree (absolute path ↦ entry; `/` itself is always a directory) and
the working directory of the process.  The tree has no symbolic links and no
access rights: a path either names an entry or does not exist.  `getwdErr` is
the error `os.Getwd` answers when the system cannot spell the working directory
(a path longer than the system allows, a directory that cannot be read back);
`none` when it can. -/
structure World where
  files : List (Path × Entry)
  cwd : Path
  getwdErr : Option Err := none
  deriving DecidableEq, Repr

/-- First entry stored under the key `p`. -/
def findEntry : List (Path × Entry) → Path → Option Entry
  | [], _ => none
  | kv :: rest, p => if kv.1 = p then some kv.2 else findEntry rest p

/-- The entry at an absolute path. -/
def World.lookup (w : World) (p : Path) : Option Entry :=
  if p = [] then some Entry.dir else findEntry w.files p

/-- One step of path resolution: empty and `.` components stay, `..` goes up
(and stays at `/`), a name goes down. -/
def applyComponent (base : Path) (c : Text) : Path :=
  if c = [] ∨ c = ".".toList then base
  else if c = "..".toList then base.dropLast
  else base ++ [c]

/-- The absolute path a path string names, seen from the working directory. -/
def World.resolve (w : World) (path : Text) : Path :=
  (path.splitOn '/').foldl applyComponent (if path.head? = some '/' then [] else w.cwd)

/-- The entry a path string names (the empty string names nothing). -/
def World.entryAt (w : World) (path : Text) : Option Entry :=
  if path = [] then none else w.lookup (w.resolve path)

/-- Go's `os.FileInfo`, as far as it is used. -/
structure FileInfo where
  isDir : Bool
  deriving DecidableEq, Repr

/-- Go's `os.Lstat` (the tree has no symbolic links, so `os.Stat` is the same). -/
def Lstat (w : World) (name : Text) : Except Err FileInfo :=
  match w.entryAt name with
  | none => .error (Err.notExist "lstat".toList name)
  | some (Entry.file _) => .ok ⟨false⟩
  | some Entry.dir => .ok ⟨true⟩

/-- Go's `os.Stat`. -/
def Stat (w : World) (name : Text) : Except Err FileInfo :=
  match w.entryAt name with
  | none => .error (Err.notExist "stat".toList name)
  | some (Entry.file _) => .ok ⟨false⟩
  | some Entry.dir => .ok ⟨true⟩

/-- Go's `os.Chdir`: the world afterwards and the error. -/
def Chdir (w : World) (dir : Text) : World × Option Err :=
  match w.entryAt dir with
  | none => (w, some (Err.notExist "chdir".toList dir))
  | some (Entry.file _) => (w, some (Err.notDir "chdir".toList dir))
  | some Entry.dir => ({ w with cwd := w.resolve dir }, none)

/-- The text of an absolute path below `/`: `/a/b` for `[a, b]`. -/
def absText (p : Path) : Text :=
  (p.map (fun c => '/' :: c)).flatten

/-- Go's `os.Getwd`: the text of the working directory, or the error of the
system call. -/
def Getwd (w : World) : Except Err Text :=
  match w.getwdErr with
  | some err => .error err
  | none => .ok (if w.cwd = [] then ['/'] else absText w.cwd)

/-- The names stored directly under the directory `dir`. -/
def childNames (files : List (Path × Entry)) (dir : Path) : List Text :=
  files.filterMap (fun kv =>
    if kv.1 ≠ [] ∧ kv.1.dropLast = dir then kv.1.getLast? else none)

/-- The listing of the directory `dir`: its entry names, each once, sorted. -/
def World.names (w : World) (dir : Path) : List Text :=
  ((childNames w.files dir).dedup).insertionSort (fun a b => a ≤ b)

/-- Go's `readDirNames` of path/filepath: the entries of a directory, sorted. -/
def readDirNames (w : World) (dirname : Text) : Except Err (List Text) :=
  match w.entryAt dirname with
  | none => .error (Err.notExist "open".toList dirname)
  | some (Entry.file _) => .error (Err.notDir "readdirent".toList dirname)
  | some Entry.dir => .ok (w.names (w.resolve dirname))

/-- Go's `os.Open`, as the reader it gives; a directory opens but cannot be read. -/
def Open (w : World) (name : Text) : Except Err Reader :=
  match w.entryAt name with
  | none => .error (Err.notExist "open".toList name)
  | some (Entry.file content) => .ok ⟨content, none⟩
  | some Entry.dir => .ok ⟨[], some (Err.isDir "read".toList name)⟩

/-- Go's `io.ReadAll`. -/
def ReadAll (r : Reader) : Except Err Text :=
  match r.fail with
  | none => .ok r.data
  | some e => if IsEOF e then .ok r.data else .error e

/-- The program's `ReadFromFile` opens and reads from file at filepath. -/
def ReadFromFile (w : World) (filepath : Text) : Except Err Text :=
  match Open w filepath with
  | .error err => .error (Err.wrapped ("open file ".toList ++ filepath) err)
  | .ok file =>
    match ReadAll file with
    | .error err => .error (Err.wrapped ("read contents from file ".toList ++ filepath) err)
    | .ok fileContent => .ok fileContent

/-! ### path/filepath -/

/-- One component in `filepath.Clean`: empty and `.` components vanish, `..`
removes the component before it, or stays when there is none to remove (and
vanishes at the start of a rooted path). -/
def cleanStep (rooted : Bool) (out : List Text) (c : Text) : List Text :=
  if c = [] ∨ c = ".".toList then out
  else if c = "..".toList then
    match out.getLast? with
    | some l => if l = "..".toList then out ++ [c] else out.dropLast
    | none => if rooted then out else out ++ [c]
  else out ++ [c]

/-- Go's `filepath.Clean` (Unix). -/
def Clean (path : Text) : Text :=
  if path = [] then ".".toList
  else
    let rooted : Bool := path.head? = some '/'
    let out := (path.splitOn '/').foldl (cleanStep rooted) []
    let body := ['/'].intercalate out
    let s := if rooted then '/' :: body else body
    if s = [] then ".".toList else s

/-- Go's `filepath.Join`: leading empty elements are skipped, the rest is joined by
`/` and cleaned. -/
def Join (elem : List Text) : Text :=
  match elem.dropWhile (fun e => e = []) with
  | [] => []
  | es => Clean (['/'].intercalate es)

/-- Go's `filepath.WalkFunc`, as a state transformer: the closure's captured
variables are the `σ` component; `none` stands for a call that never returns. -/
abbrev WalkFunc (σ : Type) :=
  Text → Option FileInfo → Option Err → World × σ → Option ((World × σ) × Option Err)

/-- The loop over the names of a directory in `filepath.walk`. -/
def walkNames {σ : Type}
    (walkRec : Text → FileInfo → World × σ → Option ((World × σ) × Option Err))
    (walkFn : WalkFunc σ) (path : Text) :
    List Text → World × σ → Option ((World × σ) × Option Err)
  | [], s => some (s, none)
  | name :: names, s =>
    let filename := Join [path, name]
    match Lstat s.1 filename with
    | .error err =>
      match walkFn filename none (some err) s with
      | none => none
      | some (s, some err) => some (s, some err)
      | some (s, none) => walkNames walkRec walkFn path names s
    | .ok fileInfo =>
      match walkRec filename fileInfo s with
      | none => none
      | some (s, some err) => some (s, some err)
      | some (s, none) => walkNames walkRec walkFn path names s

/-- Go's `filepath.walk`: the recursive descent.  (`filepath.SkipDir` is left out:
no walk function of this program returns it.) -/
def walk {σ : Type} (walkFn : WalkFunc σ) :
    Nat → Text → FileInfo → World × σ → Option ((World × σ) × Option Err)
  | 0, _, _, _ => none
  | fuel + 1, path, info, s =>
    if info.isDir = false then walkFn path (some info) none s
    else
      match readDirNames s.1 path with
      | .error err => walkFn path (some info) (some err) s
      | .ok names =>
        match walkFn path (some info) none s with
        | none => none
        | some (s, some err1) => some (s, some err1)
        | some (s, none) => walkNames (walk walkFn fuel) walkFn path names s

/-- Go's `filepath.Walk`. -/
def Walk {σ : Type} (fuel : Nat) (root : Text) (fn : WalkFunc σ) (s : World × σ) :
    Option ((World × σ) × Option Err) :=
  match Lstat s.1 root with
  | .error err => fn root none (some err) s
  | .ok info => walk fn fuel root info s

/-- Go's `strings.Count(s, "/")`. -/
def countSlash (s : Text) : Nat := s.count '/'

/-- Go's `fmt.Sprint` of a non-negative `int`. -/
def Sprint (i : Nat) : Text := (Nat.repr i).toList

/-! ### time -/

/-- Go's `time.Minute`, in nanoseconds. -/
def Minute : Nat := 60 * 1000000000

/-- Go's `Time.Round`: the nearest multiple of `d`, halfway values rounding up;
`t` itself when `d` is not positive.  A `time.Time` instant is its number of
nanoseconds since the zero time. -/
def Round (t : Nat) (d : Nat) : Nat :=
  if d = 0 then t
  else
    let r := t % d
    if r + r < d then t - r else t + (d - r)

/-- Go's `Time.UTC`: the same instant, located in UTC. -/
def UTC (t : Nat) : Nat := t

/-! ## internal/datafile.go

The file calls two helpers of its own package, `readFromFile(path)` and
`readTextualData(file)`, that are not among the sources (the readers package is
not imported, and its `ReadTextualData` takes two arguments).  They are modelled
from the specification. -/

/-- Modelled from the spec: the package helper `readFromFile` of
internal/datafile.go, which the sources do not contain.  §4.3 and §7: a file
that is absent or cannot be read is a fatal error naming the file; §8: a
localized field equals the content of its text file verbatim, minus the
trailing newline. -/
def readFromFile (w : World) (filepath : Text) : Except Err Text :=
  match ReadFromFile w filepath with
  | .error err => .error err
  | .ok fileContent => .ok (TrimSuffix fileContent ['\n'])

/-- Modelled from the spec: the package helper `readTextualData` of
internal/datafile.go (one argument), which the sources do not contain.  §4.1:
line 1 is the header, line 2 is discarded, line 3 is the body, trailing
newlines are stripped, a line the stream ends before is empty and no error, any
other read error is reported; this is the contract `ReadTextualData` of the
readers package implements, here without a label. -/
def readTextualData (file : Reader) : Text × Text × Option Err :=
  ReadTextualData file []

/-- A `float32`, as its bit pattern (never computed with). -/
structure Float32 where
  bits : Nat := 0
  deriving DecidableEq, Repr

/-- Meta represents JSON object in the beginning of data.json file. -/
structure Meta where
  RegionID : Text := []
  RegionName : Text := []
  GeneratedAt : Nat := 0
  Contributors : List Text := []
  Featured : List Text := []
  Sources : List (Text × Text) := []
  deriving DecidableEq, Repr

/-- The exported fields of `Place`: what `json.Unmarshal` can reach. -/
structure PlaceData where
  ID : Text := []
  Name : Text := []
  Section : Text := []
  Icon : Text := []
  QuickInfo : Text := []
  Overview : Text := []
  Lat : Float32 := {}
  Lng : Float32 := {}
  WebsiteURL : Text := []
  FacebookURL : Text := []
  Headers : List Text := []
  Content : List Text := []
  Images : List Text := []
  deriving DecidableEq, Repr

/-- Place represents single place in real world. -/
structure Place extends PlaceData where
  imagesPaths : List Text := []
  deriving DecidableEq, Repr

/-- Section represents places of similiar type and associated metadata. -/
structure Section where
  ID : Text := []
  Name : Text := []
  Icon : Text := []
  BgImage : Text := []
  QuickInfo : Text := []
  Places : List Place := []
  deriving DecidableEq, Repr

/-- Track represents a bike trail or some other "long" geographical object. -/
structure Track where
  ID : Text := []
  Name : Text := []
  QuickInfo : Text := []
  Overview : Text := []
  Images : List Text := []
  Coords : List (Float32 × Float32) := []
  deriving DecidableEq, Repr

/-- The exported fields of `Story`. -/
structure StoryData where
  ID : Text := []
  Name : Text := []
  MarkdownFile : Text := []
  Images : List Text := []
  deriving DecidableEq, Repr

/-- Story represents a longer piece of text about a particular topic. -/
structure Story extends StoryData where
  imagesPaths : List Text := []
  deriving DecidableEq, Repr

/-- Dayroom represents a place run by local community. -/
structure Dayroom where
  ID : Text := []
  Type' : Text := []
  Section : Text := []
  Name : Text := []
  QuickInfo : Text := []
  Overview : Text := []
  Images : List Text := []
  Lat : Float32 := {}
  Lng : Float32 := {}
  Leader : Text := []
  deriving DecidableEq, Repr

/-- Go's `json.Unmarshal` of encoding/json on each record type: the record after the
call (a failed call may have written some fields) and the error message, if
any.  The library is a parameter of the loaders. -/
structure Json where
  unmarshalMeta : Text → Meta → Meta × Option Text
  unmarshalSection : Text → Section → Section × Option Text
  unmarshalPlace : Text → PlaceData → PlaceData × Option Text
  unmarshalTrack : Text → Track → Track × Option Text
  unmarshalStory : Text → StoryData → StoryData × Option Text
  unmarshalDayroom : Text → Dayroom → Dayroom × Option Text

/-- Quality represents the quality of the image. -/
abbrev Quality := Int

/-- Compressed quality is most often used. -/
def Compressed : Quality := 0 + 1

/-- Original quality represents full, uncompressed image. -/
def Original : Quality := 1 + 1

/-- Parse parses datafile's metadata and assigns it to meta struct pointed to
by m.  `now` is what `time.Now()` answers. -/
def Meta.Parse (J : Json) (now : Nat) (w : World) (lang : Text) (m : Meta) :
    Meta × Option Err :=
  let m := { m with GeneratedAt := UTC (Round now Minute) }
  match readFromFile w (lang ++ "/name.txt".toList) with
  | .error err => (m, some err)
  | .ok name =>
    let m := { m with RegionName := name }
    match readFromFile w "data.json".toList with
    | .error err => (m, some err)
    | .ok data =>
      match J.unmarshalMeta data m with
      | (m, some msg) => (m, some (Err.json msg))
      | (m, none) => (m, none)

/-- The directory name of a quality in `makeImagesPaths`. -/
def qualityDir (quality : Quality) : Text :=
  if quality = Compressed then "compressed".toList
  else if quality = Original then "original".toList
  else []

/-- The body of the loop of `(*Place).makeImagesPaths` for one image: a failed
`os.Stat` only prints a message, the path is appended either way. -/
def Place.addImagePath (w : World) (cwd : Text) (quality : Quality) (p : Place)
    (image : Text) : Place :=
  let absPath := Join [cwd, "images/".toList, qualityDir quality,
    "/".toList ++ image ++ ".webp".toList]
  match Stat w absPath with
  | .error _ => { p with imagesPaths := p.imagesPaths ++ [absPath] }
  | .ok _ => { p with imagesPaths := p.imagesPaths ++ [absPath] }

/-- The program's `(*Place).makeImagesPaths`. -/
def Place.makeImagesPaths (w : World) (quality : Quality) (p : Place) : Place × Option Err :=
  match Getwd w with
  | .error err => (p, some err)
  | .ok cwd => (p.Images.foldl (Place.addImagePath w cwd quality) p, none)

/-- ImagesPaths returns paths of all images of place p. -/
def Place.ImagesPaths (p : Place) : List Text := p.imagesPaths

/-- The `for` loop of `(*Place).Parse` over the numbered text files; `i` is the
loop's index variable.  `none`: the loop did not end within `fuel` rounds. -/
def Place.textLoop (w : World) (lang : Text) (i : Nat) : Nat → Place → Option (Place × Option Err)
  | 0, _ => none
  | fuel + 1, p =>
    let textFileName := "text_".toList ++ Sprint i
    match Open w ("content/".toList ++ lang ++ "/".toList ++ textFileName) with
    | .error err =>
      if IsNotExist err then some (p, none)
      else
        match readTextualData ⟨[], some Err.invalid⟩ with
        | (_, _, some err) => some (p, some err)
        | (header, content, none) =>
          Place.textLoop w lang i fuel
            { p with Headers := p.Headers ++ [header], Content := p.Content ++ [content] }
    | .ok textFile =>
      match readTextualData textFile with
      | (_, _, some err) => some (p, some err)
      | (header, content, none) =>
        Place.textLoop w lang i fuel
          { p with Headers := p.Headers ++ [header], Content := p.Content ++ [content] }

/-- Parse parses place data from its directory and assigns it to the place
pointed to by p. It must be used directly in the place's directory. -/
def Place.Parse (J : Json) (fuel : Nat) (w : World) (lang : Text) (p : Place) :
    Option (Place × Option Err) :=
  match readFromFile w ("content/".toList ++ lang ++ "/name.txt".toList) with
  | .error err => some (p, some err)
  | .ok name =>
    let p := { p with Name := name }
    match readFromFile w ("content/".toList ++ lang ++ "/quick_info.txt".toList) with
    | .error err => some (p, some err)
    | .ok quickInfo =>
      let p := { p with QuickInfo := quickInfo }
      match readFromFile w ("content/".toList ++ lang ++ "/overview.txt".toList) with
      | .error err => some (p, some err)
      | .ok overview =>
        let p := { p with Overview := overview }
        match Place.textLoop w lang 0 fuel p with
        | none => none
        | some (p, some err) => some (p, some err)
        | some (p, none) =>
          match readFromFile w "data.json".toList with
          | .error err => some (p, some err)
          | .ok data =>
            match J.unmarshalPlace data p.toPlaceData with
            | (d, some msg) => some ({ p with toPlaceData := d }, some (Err.json msg))
            | (d, none) =>
              let p := { p with toPlaceData := d }
              let p := (Place.makeImagesPaths w Compressed p).1
              some (p, none)

/-- The walk function `placesWalker` of `(*Section).Parse`; it captures
`places`. -/
def Section.placesWalker (J : Json) (fuel : Nat) (lang : Text) : WalkFunc (List Place) :=
  fun path _info _err s =>
    let level := countSlash path
    if level ≠ 1 then some (s, none)
    else
      let w := (Chdir s.1 path).1
      match Place.Parse J fuel w lang {} with
      | none => none
      | some (_, some err) =>
        some ((w, s.2), some (Err.wrapped ("error parsing ".toList ++ path) err))
      | some (place, none) =>
        let w := (Chdir w "../..".toList).1
        some ((w, s.2 ++ [place]), none)

/-- Parse parses section data from its directory and assigns it to section
pointed to by s. It must be used directly in the section's directory. It
recursively parses places.  The result carries the world afterwards. -/
def Section.Parse (J : Json) (fuel : Nat) (w : World) (lang : Text) (s : Section) :
    Option (Section × World × Option Err) :=
  match readFromFile w ("content/".toList ++ lang ++ "/name.txt".toList) with
  | .error err => some (s, w, some err)
  | .ok name =>
    let s := { s with Name := name }
    match readFromFile w ("content/".toList ++ lang ++ "/quick_info.txt".toList) with
    | .error err => some (s, w, some err)
    | .ok quickInfo =>
      let s := { s with QuickInfo := quickInfo }
      match readFromFile w "data.json".toList with
      | .error err => some (s, w, some err)
      | .ok data =>
        -- err = json.Unmarshal(data, s): the next assignment to err replaces it
        let s := (J.unmarshalSection data s).1
        match Walk fuel "places".toList (Section.placesWalker J fuel lang) (w, []) with
        | none => none
        | some ((w, places), err) => some ({ s with Places := places }, w, err)

/-- Parse parses track data from its directory and assigns it to track pointed
to by t. -/
def Track.Parse (J : Json) (w : World) (lang : Text) (t : Track) : Track × Option Err :=
  match readFromFile w (lang ++ "/name.txt".toList) with
  | .error err => (t, some err)
  | .ok name =>
    let t := { t with Name := name }
    match readFromFile w (lang ++ "/overview.txt".toList) with
    | .error err => (t, some err)
    | .ok overview =>
      let t := { t with Overview := overview }
      match readFromFile w (lang ++ "/quick_info.txt".toList) with
      | .error err => (t, some err)
      | .ok quickInfo =>
        let t := { t with QuickInfo := quickInfo }
        match readFromFile w "data.json".toList with
        | .error err => (t, some err)
        | .ok data =>
          match J.unmarshalTrack data t with
          | (t, err) => (t, err.map Err.json)

/-- The program's `(*Story).makeImagesPaths`. -/
def Story.makeImagesPaths (w : World) (quality : Quality) (s : Story) : Story × Option Err :=
  match Getwd w with
  | .error err => (s, some err)
  | .ok cwd =>
    (s.Images.foldl (fun s image =>
      let absPath := Join [cwd, "images/".toList, qualityDir quality,
        "/".toList ++ image ++ ".webp".toList]
      { s with imagesPaths := s.imagesPaths ++ [absPath] }) s, none)

/-- ImagesPaths returns paths of all images of story s. -/
def Story.ImagesPaths (s : Story) : List Text := s.imagesPaths

/-- Parse parses story data from its directory and assigns it to story pointed
to by s. -/
def Story.Parse (J : Json) (w : World) (lang : Text) (s : Story) : Story × Option Err :=
  match readFromFile w (lang ++ "/name.txt".toList) with
  | .error err => (s, some err)
  | .ok name =>
    let s := { s with Name := name }
    match readFromFile w "data.json".toList with
    | .error err => (s, some err)
    | .ok data =>
      match J.unmarshalStory data s.toStoryData with
      | (d, some msg) => ({ s with toStoryData := d }, some (Err.json msg))
      | (d, none) =>
        let s := { s with toStoryData := d }
        let s := (Story.makeImagesPaths w Compressed s).1
        (s, none)

/-- Parse parses dayroom data from its directory and assigns it to dayroom
pointed to by d. -/
def Dayroom.Parse (J : Json) (w : World) (lang : Text) (dayroom : Dayroom) :
    Dayroom × Option Err :=
  match readFromFile w ("content/".toList ++ lang ++ "/name.txt".toList) with
  | .error err => (dayroom, some err)
  | .ok name =>
    let dayroom := { dayroom with Name := name }
    match readFromFile w ("content/".toList ++ lang ++ "/overview.txt".toList) with
    | .error err => (dayroom, some err)
    | .ok overview =>
      let dayroom := { dayroom with Overview := overview }
      match readFromFile w ("content/".toList ++ lang ++ "/quick_info.txt".toList) with
      | .error err => (dayroom, some err)
      | .ok quickInfo =>
        let dayroom := { dayroom with QuickInfo := quickInfo }
        match readFromFile w "data.json".toList with
        | .error err => (dayroom, some err)
        | .ok data =>
          match J.unmarshalDayroom data dayroom with
          | (dayroom, some msg) => (dayroom, some (Err.json msg))
          | (dayroom, none) => (dayroom, none)

/-! ## cmd/generate/parsers.go -/

/-- The walk function of `parseSections`; it captures `sections`. -/
def sectionsWalker (J : Json) (fuel : Nat) (lang : Text) : WalkFunc (List Section) :=
  fun path _info err s =>
    match err with
    | some err => some (s, some (Err.wrapped ("parse section ".toList ++ path) err))
    | none =>
      let level := countSlash path
      if level ≠ 1 then some (s, none)
      else
        let w := (Chdir s.1 path).1
        match Section.Parse J fuel w lang {} with
        | none => none
        | some (_, w, some err) =>
          some ((w, s.2), some (Err.wrapped ("parse section ".toList ++ path) err))
        | some (sec, w, none) =>
          let w := (Chdir w "../..".toList).1
          some ((w, s.2 ++ [sec]), none)

/-- The program's `parseSections`: the sections, the world afterwards, the error. -/
def parseSections (J : Json) (fuel : Nat) (w : World) (lang : Text) :
    Option (List Section × World × Option Err) :=
  match Walk fuel "sections".toList (sectionsWalker J fuel lang) (w, []) with
  | none => none
  | some ((w, sections), some err) =>
    some (sections, w, some (Err.wrapped "walk sections".toList err))
  | some ((w, sections), none) => some (sections, w, none)

/-- The walk function of `parseTracks`; it captures `tracks`. -/
def tracksWalker (J : Json) (lang : Text) : WalkFunc (List Track) :=
  fun path _info err s =>
    match err with
    | some err => some (s, some (Err.wrapped ("parse track ".toList ++ path) err))
    | none =>
      let level := countSlash path
      if level ≠ 1 then some (s, none)
      else
        let w := (Chdir s.1 path).1
        match Track.Parse J w lang {} with
        | (track, err) =>
          let tracks := s.2 ++ [track]
          let w := (Chdir w "../..".toList).1
          some ((w, tracks), err)

/-- The program's `parseTracks`. -/
def parseTracks (J : Json) (fuel : Nat) (w : World) (lang : Text) :
    Option (List Track × World × Option Err) :=
  match Stat w "tracks".toList with
  | .error err =>
    if IsNotExist err then some ([], w, none)
    else
      match Walk fuel "tracks".toList (tracksWalker J lang) (w, []) with
      | none => none
      | some ((w, tracks), err) => some (tracks, w, err)
  | .ok _ =>
    match Walk fuel "tracks".toList (tracksWalker J lang) (w, []) with
    | none => none
    | some ((w, tracks), err) => some (tracks, w, err)

/-- The walk function of `parseStories`; it captures `stories`. -/
def storiesWalker (J : Json) (lang : Text) : WalkFunc (List Story) :=
  fun path _info err s =>
    match err with
    | some err => some (s, some (Err.wrapped ("parse story ".toList ++ path) err))
    | none =>
      let level := countSlash path
      if level ≠ 1 then some (s, none)
      else
        let w := (Chdir s.1 path).1
        match Story.Parse J w lang {} with
        | (story, err) =>
          let stories := s.2 ++ [story]
          let w := (Chdir w "../..".toList).1
          some ((w, stories), err)

/-- The program's `parseStories`. -/
def parseStories (J : Json) (fuel : Nat) (w : World) (lang : Text) :
    Option (List Story × World × Option Err) :=
  match Stat w "stories".toList with
  | .error err =>
    if IsNotExist err then some ([], w, none)
    else
      match Walk fuel "stories".toList (storiesWalker J lang) (w, []) with
      | none => none
      | some ((w, stories), err) => some (stories, w, err)
  | .ok _ =>
    match Walk fuel "stories".toList (storiesWalker J lang) (w, []) with
    | none => none
    | some ((w, stories), err) => some (stories, w, err)

/-- The program's `parseMeta`. -/
def parseMeta (J : Json) (now : Nat) (w : World) (lang : Text) : Meta × World × Option Err :=
  let w := (Chdir w "meta".toList).1
  match Meta.Parse J now w lang {} with
  | (m, err) =>
    let w := (Chdir w "..".toList).1
    (m, w, err)

/-- The working directory as `os.Getwd` spells it when it answers. -/
def cwdText (w : World) : Text :=
  if w.cwd = [] then ['/'] else absText w.cwd

/-- The path `makeImagesPaths` computes for one image identifier, seen from the
directory `cwd`. -/
def imagePathOf (cwd : Text) (quality : Quality) (image : Text) : Text :=
  Join [cwd, "images/".toList, qualityDir quality, "/".toList ++ image ++ ".webp".toList]

/-- A name a directory entry can carry: not empty, no separator, not `.` or `..`. -/
def validName (n : Text) : Prop :=
  n ≠ [] ∧ '/' ∉ n ∧ n ≠ ".".toList ∧ n ≠ "..".toList

instance (n : Text) : Decidable (validName n) := by
  unfold validName; infer_instance

/-- The text of a relative path: `a/b/c` for `[a, b, c]`. -/
def relText (comps : List Text) : Text := ['/'].intercalate comps


/-- A well-formed world: every component in the tree and in the working
directory is an entry name, and the working directory exists. -/
def World.WF (w : World) : Prop :=
  (∀ kv ∈ w.files, ∀ c ∈ kv.1, validName c) ∧ (∀ c ∈ w.cwd, validName c) ∧
    w.lookup w.cwd = some Entry.dir

instance (w : World) : Decidable w.WF := by
  unfold World.WF; infer_instance

/-- The length of the longest path in the tree. -/
def World.depth (w : World) : Nat :=
  (w.files.map (fun kv => kv.1.length)).foldr max 0

/-- The world seen from the directory `comps` below the working directory. -/
def World.cd (w : World) (comps : List Text) : World :=
  { w with cwd := w.cwd ++ comps }

/-- A walk function that leaves everything below the first level alone. -/
def Deep {σ : Type} (fn : WalkFunc σ) : Prop :=
  ∀ (path : Text) (info : FileInfo) (s : World × σ),
    2 ≤ countSlash path → fn path (some info) none s = some (s, none)

/-- No data.json document defines a key of a localized field (the documented
layout: names, quick infos and overviews live in the text files only). -/
def Json.keepsText (J : Json) : Prop :=
  ∀ data : Text,
    (∀ m, (J.unmarshalMeta data m).1.RegionName = m.RegionName) ∧
    (∀ s, (J.unmarshalSection data s).1.Name = s.Name ∧
      (J.unmarshalSection data s).1.QuickInfo = s.QuickInfo) ∧
    (∀ p, (J.unmarshalPlace data p).1.Name = p.Name ∧
      (J.unmarshalPlace data p).1.QuickInfo = p.QuickInfo ∧
      (J.unmarshalPlace data p).1.Overview = p.Overview) ∧
    (∀ t, (J.unmarshalTrack data t).1.Name = t.Name ∧
      (J.unmarshalTrack data t).1.QuickInfo = t.QuickInfo ∧
      (J.unmarshalTrack data t).1.Overview = t.Overview) ∧
    (∀ s, (J.unmarshalStory data s).1.Name = s.Name) ∧
    (∀ d, (J.unmarshalDayroom data d).1.Name = d.Name ∧
      (J.unmarshalDayroom data d).1.QuickInfo = d.QuickInfo ∧
      (J.unmarshalDayroom data d).1.Overview = d.Overview)

/-- The components before `images` in the joined text: the empty component
in front of the leading `/`, then the directory's names (for `/` itself, one
more empty component). -/
def rootedHead (cwd : Path) : List Text :=
  [] :: (if cwd = [] then [[]] else cwd)

/-! ## Example trees -/

/-- A table entry, the path given as text (`/srv/region/meta`). -/
def node (path : String) (e : Entry) : Path × Entry :=
  ((path.toList.splitOn '/').filter (fun c => c ≠ []), e)

/-- A regular file with its content. -/
def txt (path : String) (content : String) : Path × Entry :=
  node path (Entry.file content.toList)

/-- A decoder given by the finitely many documents the examples use: a listed
document is valid JSON and sets the fields shown, any other text is rejected. -/
def decodeBy {α : Type} (table : List (String × (α → α))) (data : Text) (r : α) :
    α × Option Text :=
  match table.find? (fun kv => kv.1.toList = data) with
  | some kv => (kv.2 r, none)
  | none => (r, some "invalid character".toList)

/-- What `json.Unmarshal` does on the documents of the examples: `{}`,
`{"region_id":"rx"}`, `{"id":"food"}`, `{"id":"joe","images":["joe1"]}`,
`{"id":"lake"}`, `{"id":"myth","images":["myth1"]}`; the only other document
the examples hold is the broken `{`. -/
def exampleJson : Json where
  unmarshalMeta := decodeBy [("\x7b\x7d", id),
    ("\x7b\"region_id\":\"rx\"\x7d", fun m => { m with RegionID := "rx".toList })]
  unmarshalSection := decodeBy [("\x7b\x7d", id),
    ("\x7b\"id\":\"food\"\x7d", fun s => { s with ID := "food".toList })]
  unmarshalPlace := decodeBy [("\x7b\x7d", id),
    ("\x7b\"id\":\"joe\",\"images\":[\"joe1\"]\x7d",
      fun p => { p with ID := "joe".toList, Images := ["joe1".toList] })]
  unmarshalTrack := decodeBy [("\x7b\x7d", id),
    ("\x7b\"id\":\"lake\"\x7d", fun t => { t with ID := "lake".toList })]
  unmarshalStory := decodeBy [("\x7b\x7d", id),
    ("\x7b\"id\":\"myth\",\"images\":[\"myth1\"]\x7d",
      fun s => { s with ID := "myth".toList, Images := ["myth1".toList] })]
  unmarshalDayroom := decodeBy [("\x7b\x7d", id)]

/-- The files of a region: meta, one section `food` with one place `joe`
(image `joe1`), one track `lake`, one story `myth` (image `myth1`), one image
file under the region root. -/
def regionFiles : List (Path × Entry) :=
  [ node "/srv" Entry.dir, node "/srv/region" Entry.dir,
    node "/srv/region/meta" Entry.dir, node "/srv/region/meta/en" Entry.dir,
    txt "/srv/region/meta/en/name.txt" "Region X\n",
    txt "/srv/region/meta/data.json" "\x7b\"region_id\":\"rx\"\x7d",
    node "/srv/region/sections" Entry.dir, node "/srv/region/sections/food" Entry.dir,
    txt "/srv/region/sections/food/data.json" "\x7b\"id\":\"food\"\x7d",
    node "/srv/region/sections/food/content" Entry.dir,
    node "/srv/region/sections/food/content/en" Entry.dir,
    txt "/srv/region/sections/food/content/en/name.txt" "Food\n",
    txt "/srv/region/sections/food/content/en/quick_info.txt" "Eat well\n",
    node "/srv/region/sections/food/places" Entry.dir,
    node "/srv/region/sections/food/places/joe" Entry.dir,
    txt "/srv/region/sections/food/places/joe/data.json"
      "\x7b\"id\":\"joe\",\"images\":[\"joe1\"]\x7d",
    node "/srv/region/sections/food/places/joe/content" Entry.dir,
    node "/srv/region/sections/food/places/joe/content/en" Entry.dir,
    txt "/srv/region/sections/food/places/joe/content/en/name.txt" "Joe\n",
    txt "/srv/region/sections/food/places/joe/content/en/quick_info.txt" "Burgers\n",
    txt "/srv/region/sections/food/places/joe/content/en/overview.txt" "Best burgers\n",
    node "/srv/region/images" Entry.dir, node "/srv/region/images/compressed" Entry.dir,
    txt "/srv/region/images/compressed/joe1.webp" "RIFF",
    node "/srv/region/tracks" Entry.dir, node "/srv/region/tracks/lake" Entry.dir,
    txt "/srv/region/tracks/lake/data.json" "\x7b\"id\":\"lake\"\x7d",
    node "/srv/region/tracks/lake/en" Entry.dir,
    txt "/srv/region/tracks/lake/en/name.txt" "Lake trail\n",
    txt "/srv/region/tracks/lake/en/overview.txt" "Round the lake\n",
    txt "/srv/region/tracks/lake/en/quick_info.txt" "12 km\n",
    node "/srv/region/stories" Entry.dir, node "/srv/region/stories/myth" Entry.dir,
    txt "/srv/region/stories/myth/data.json"
      "\x7b\"id\":\"myth\",\"images\":[\"myth1\"]\x7d",
    node "/srv/region/stories/myth/en" Entry.dir,
    txt "/srv/region/stories/myth/en/name.txt" "The myth\n" ]

/-- The region, the process standing in the region root. -/
def region : World := { files := regionFiles, cwd := ["srv".toList, "region".toList] }

/-- The region, the process standing in `meta/`. -/
def regionMeta : World :=
  { files := regionFiles, cwd := ["srv".toList, "region".toList, "meta".toList] }

/-- The region, the process standing in the section `food`. -/
def regionFood : World :=
  { files := regionFiles, cwd := ["srv".toList, "region".toList, "sections".toList, "food".toList] }

/-- The region, the process standing in the place `joe`. -/
def regionJoe : World :=
  { files := regionFiles,
    cwd := ["srv".toList, "region".toList, "sections".toList, "food".toList,
      "places".toList, "joe".toList] }

/-- The place `joe` with one numbered text block `text_0` (and no `text_1`). -/
def joeWithText : World :=
  { files := regionFiles ++
      [txt "/srv/region/sections/food/places/joe/content/en/text_0" "History\n---\nFounded 1990\n"],
    cwd := regionJoe.cwd }

/-- A section directory whose `data.json` is not JSON, without `places/`. -/
def brokenSection : World :=
  { files :=
      [ node "/srv" Entry.dir, node "/srv/region" Entry.dir,
        node "/srv/region/sections" Entry.dir, node "/srv/region/sections/food" Entry.dir,
        txt "/srv/region/sections/food/data.json" "\x7b",
        node "/srv/region/sections/food/content" Entry.dir,
        node "/srv/region/sections/food/content/en" Entry.dir,
        txt "/srv/region/sections/food/content/en/name.txt" "Food\n",
        txt "/srv/region/sections/food/content/en/quick_info.txt" "Eat well\n" ],
    cwd := ["srv".toList, "region".toList, "sections".toList, "food".toList] }

/-- A region root with nothing in it: no `sections/`, `tracks/`, `stories/`. -/
def emptyRegion : World :=
  { files := [node "/srv" Entry.dir, node "/srv/region" Entry.dir],
    cwd := ["srv".toList, "region".toList] }

/-- The region, the process standing in the story `myth`. -/
def regionMyth : World :=
  { files := regionFiles,
    cwd := ["srv".toList, "region".toList, "stories".toList, "myth".toList] }

/-- The region, the process standing in the track `lake`. -/
def regionLake : World :=
  { files := regionFiles,
    cwd := ["srv".toList, "region".toList, "tracks".toList, "lake".toList] }

/-- The place `joe` as `Place.Parse` leaves it in `regionJoe`. -/
def joeLoaded : Place :=
  { ID := "joe".toList, Name := "Joe".toList, QuickInfo := "Burgers".toList,
    Overview := "Best burgers".toList, Images := ["joe1".toList],
    imagesPaths :=
      ["/srv/region/sections/food/places/joe/images/compressed/joe1.webp".toList] }

/-- The story `myth` as `Story.Parse` leaves it in `regionMyth`. -/
def mythLoaded : Story :=
  { ID := "myth".toList, Name := "The myth".toList, Images := ["myth1".toList],
    imagesPaths := ["/srv/region/stories/myth/images/compressed/myth1.webp".toList] }

/-- The section `food` as `Section.Parse` leaves it in `regionFood`. -/
def foodLoaded : Section :=
  { ID := "food".toList, Name := "Food".toList, QuickInfo := "Eat well".toList,
    Places := [joeLoaded] }

/-- The track `lake` as `Track.Parse` leaves it in `regionLake`. -/
def lakeLoaded : Track :=
  { ID := "lake".toList, Name := "Lake trail".toList, Overview := "Round the lake".toList,
    QuickInfo := "12 km".toList }

/-- A complete track or story directory: `data.json` holding `{}` and the
three English text files. -/
def flatEntity (dir : String) (name : String) : List (Path × Entry) :=
  [ node dir Entry.dir, txt (dir ++ "/data.json") "\x7b\x7d", node (dir ++ "/en") Entry.dir,
    txt (dir ++ "/en/name.txt") name, txt (dir ++ "/en/overview.txt") "Overview\n",
    txt (dir ++ "/en/quick_info.txt") "Info\n" ]

/-- The text directory `content/en` of a section or place, with all three
text files. -/
def contentOf (dir : String) (name : String) : List (Path × Entry) :=
  [ node dir Entry.dir, txt (dir ++ "/data.json") "\x7b\x7d",
    node (dir ++ "/content") Entry.dir, node (dir ++ "/content/en") Entry.dir,
    txt (dir ++ "/content/en/name.txt") name,
    txt (dir ++ "/content/en/overview.txt") "Overview\n",
    txt (dir ++ "/content/en/quick_info.txt") "Info\n" ]

/-- A region in which the second child of every collection cannot be loaded:
the track `moor` lacks overview.txt, the story `saga` lacks data.json, the place
`kim` of the section `food` lacks overview.txt (so `food` fails as well). -/
def brokenFiles : List (Path × Entry) :=
  [ node "/srv" Entry.dir, node "/srv/b" Entry.dir, node "/srv/b/tracks" Entry.dir ] ++
  flatEntity "/srv/b/tracks/lake" "Lake\n" ++
  [ node "/srv/b/tracks/moor" Entry.dir, node "/srv/b/tracks/moor/en" Entry.dir,
    txt "/srv/b/tracks/moor/en/name.txt" "Moor\n" ] ++
  flatEntity "/srv/b/tracks/peak" "Peak\n" ++
  [ node "/srv/b/stories" Entry.dir ] ++
  flatEntity "/srv/b/stories/myth" "Myth\n" ++
  [ node "/srv/b/stories/saga" Entry.dir, node "/srv/b/stories/saga/en" Entry.dir,
    txt "/srv/b/stories/saga/en/name.txt" "Saga\n" ] ++
  flatEntity "/srv/b/stories/tale" "Tale\n" ++
  [ node "/srv/b/sections" Entry.dir ] ++
  contentOf "/srv/b/sections/art" "Art\n" ++
  contentOf "/srv/b/sections/food" "Food\n" ++
  [ node "/srv/b/sections/food/places" Entry.dir ] ++
  contentOf "/srv/b/sections/food/places/joe" "Joe\n" ++
  [ node "/srv/b/sections/food/places/kim" Entry.dir,
    node "/srv/b/sections/food/places/kim/content" Entry.dir,
    node "/srv/b/sections/food/places/kim/content/en" Entry.dir,
    txt "/srv/b/sections/food/places/kim/content/en/name.txt" "Kim\n",
    txt "/srv/b/sections/food/places/kim/content/en/quick_info.txt" "Info\n" ] ++
  contentOf "/srv/b/sections/food/places/lee" "Lee\n" ++
  contentOf "/srv/b/sections/zoo" "Zoo\n"

/-- The broken region, the process standing in its root. -/
def brokenRegion : World := { files := brokenFiles, cwd := ["srv".toList, "b".toList] }

/-- The broken region, the process standing in the section `food`. -/
def brokenFood : World :=
  { files := brokenFiles,
    cwd := ["srv".toList, "b".toList, "sections".toList, "food".toList] }

/-- A region root that itself holds the files of a track, and whose `tracks/`
holds one plain file and no directory. -/
def looseFile : World :=
  { files :=
      [ node "/srv" Entry.dir, node "/srv/c" Entry.dir, node "/srv/c/en" Entry.dir,
        txt "/srv/c/data.json" "\x7b\x7d", txt "/srv/c/en/name.txt" "Stray\n",
        txt "/srv/c/en/overview.txt" "Overview\n", txt "/srv/c/en/quick_info.txt" "Info\n",
        node "/srv/c/tracks" Entry.dir, txt "/srv/c/tracks/README.md" "notes" ],
    cwd := ["srv".toList, "c".toList] }

/-- What a missing `path` makes `ReadFromFile` answer. -/
def openFailed (path : String) : Err :=
  Err.wrapped ("open file ".toList ++ path.toList) (Err.notExist "open".toList path.toList)

/-- The place `joe` of the broken region, loaded. -/
def brokenJoe : Place :=
  { Name := "Joe".toList, QuickInfo := "Info".toList, Overview := "Overview".toList }

/-- The place `kim` of the broken region, as far as the loader got. -/
def brokenKim : Place :=
  { Name := "Kim".toList, QuickInfo := "Info".toList }

/-- The section `art` of the broken region, loaded. -/
def brokenArt : Section :=
  { Name := "Art".toList, QuickInfo := "Info".toList }

/-- The broken region, the process standing in the place `joe` of `food`
(which has the layout of a dayroom directory as well). -/
def brokenJoeDir : World :=
  { files := brokenFiles,
    cwd := ["srv".toList, "b".toList, "sections".toList, "food".toList,
      "places".toList, "joe".toList] }

/-- The section `food` of the region, its place `joe` holding one numbered
text block `text_0`; the process stands in the section. -/
def foodWithText : World :=
  { files := joeWithText.files, cwd := regionFood.cwd }

/-- The place `joe` of the region at a moment when `os.Getwd` fails. -/
def joeNoGetwd : World :=
  { regionJoe with getwdErr := some (Err.syscall "getwd".toList "file name too long".toList) }

/-- The story `myth` of the region at a moment when `os.Getwd` fails. -/
def mythNoGetwd : World :=
  { regionMyth with getwdErr := some (Err.syscall "getwd".toList "file name too long".toList) }

/-! ### Lemmas on `readUntil` -/

theorem TrimSuffix_append_singleton (pre : Text) (d : Char) :
    TrimSuffix (pre ++ [d]) [d] = pre := by
  unfold TrimSuffix
  have h : ([d] : Text).isSuffixOf (pre ++ [d]) = true := by
    rw [List.isSuffixOf_iff_suffix]
    exact List.suffix_append pre [d]
  simp [h]

theorem TrimSuffix_of_not_mem (s : Text) (d : Char) (h : d ∉ s) :
    TrimSuffix s [d] = s := by
  unfold TrimSuffix
  have h2 : ¬ ([d] : Text).isSuffixOf s = true := by
    rw [List.isSuffixOf_iff_suffix]
    intro hs
    exact h (hs.subset (List.mem_singleton_self d))
  simp [h2]

theorem readUntil_none (d : Char) (data : Text) (h : (readUntil d data).2 = none) :
    d ∉ (readUntil d data).1 ∧ data.splitOn d = [(readUntil d data).1] := by
  induction data with
  | nil => simp [readUntil, List.splitOn, List.splitOnP_nil]
  | cons c cs ih =>
    unfold readUntil at h ⊢
    by_cases hc : c = d
    · simp [hc] at h
    · simp only [hc, if_false] at h ⊢
      obtain ⟨h1, h2⟩ := ih h
      refine ⟨?_, ?_⟩
      · simp [h1, Ne.symm hc]
      · have h3 : List.splitOnP (fun x => x == d) cs = [(readUntil d cs).1] := h2
        simp [List.splitOn, List.splitOnP_cons, hc, h3]

theorem readUntil_some (d : Char) (data rest : Text) (h : (readUntil d data).2 = some rest) :
    ∃ pre, (readUntil d data).1 = pre ++ [d] ∧ d ∉ pre ∧
      data.splitOn d = pre :: rest.splitOn d := by
  induction data with
  | nil => simp [readUntil] at h
  | cons c cs ih =>
    unfold readUntil at h ⊢
    by_cases hc : c = d
    · simp only [hc, if_true] at h ⊢
      have hr : cs = rest := by simpa using h
      refine ⟨[], by simp, by simp, ?_⟩
      simp [List.splitOn, List.splitOnP_cons, hr]
    · simp only [hc, if_false] at h ⊢
      obtain ⟨pre, h1, h2, h3⟩ := ih h
      refine ⟨c :: pre, by simp [h1], by simp [h2, Ne.symm hc], ?_⟩
      have h4 : List.splitOnP (fun x => x == d) cs
          = pre :: List.splitOnP (fun x => x == d) rest := h3
      simp [List.splitOn, List.splitOnP_cons, hc, h4]

/-- One `ReadString` followed by `TrimSuffix` on a reader that only fails with
end-of-stream: the line is the first piece of the text cut at newlines, and the
reader goes on with the remaining pieces. -/
theorem ReadString_eof (data : Text) (f : Option Err) (hf : f.all IsEOF = true) :
    ∃ rest : Text,
      (∀ msg filename, afterRead msg filename (ReadString ⟨data, f⟩ '\n').2.1 = none) ∧
      (ReadString ⟨data, f⟩ '\n').2.2 = ⟨rest, f⟩ ∧
      TrimSuffix (ReadString ⟨data, f⟩ '\n').1 ['\n'] = (data.splitOn '\n').getD 0 [] ∧
      (∀ k, (rest.splitOn '\n').getD k [] = (data.splitOn '\n').getD (k + 1) []) := by
  have hend : IsEOF (f.getD Err.eof) = true := by
    cases f with
    | none => rfl
    | some e => simpa using hf
  unfold ReadString
  cases h : (readUntil '\n' data).2 with
  | none =>
    obtain ⟨h1, h2⟩ := readUntil_none '\n' data h
    have hp : readUntil '\n' data = ((readUntil '\n' data).1, none) := by
      rw [← h]
    rw [hp]
    refine ⟨[], by simp [afterRead, hend], rfl, ?_, ?_⟩
    · simp only [h2]
      simpa using TrimSuffix_of_not_mem _ _ h1
    · intro k
      have hn : List.splitOn '\n' ([] : Text) = [[]] := by
        simp [List.splitOn, List.splitOnP_nil]
      rw [hn, h2]
      cases k <;> simp
  | some rest =>
    obtain ⟨pre, h1, h2, h3⟩ := readUntil_some '\n' data rest h
    have hp : readUntil '\n' data = (pre ++ ['\n'], some rest) := by
      rw [← h, ← h1]
    rw [hp]
    refine ⟨rest, by simp [afterRead], rfl, ?_, ?_⟩
    · simp only [h3]
      simpa using TrimSuffix_append_singleton pre '\n'
    · intro k
      simp [h3]

/-! ## Path lemmas -/

theorem intercalate_snoc (sep : Text) (xs : List Text) (x : Text) (h : xs ≠ []) :
    sep.intercalate (xs ++ [x]) = sep.intercalate xs ++ sep ++ x := by
  induction xs with
  | nil => exact absurd rfl h
  | cons a as ih =>
    cases as with
    | nil => simp [List.intercalate]
    | cons b bs =>
      have := ih (by simp)
      simp only [List.intercalate, List.cons_append, List.intersperse_cons₂, List.flatten_cons] at this ⊢
      rw [this]
      simp

theorem relText_snoc (comps : List Text) (n : Text) (h : comps ≠ []) :
    relText (comps ++ [n]) = relText comps ++ '/' :: n := by
  unfold relText
  rw [intercalate_snoc _ _ _ h]
  simp

theorem splitOn_relText (comps : List Text) (h : comps ≠ []) (hv : ∀ c ∈ comps, validName c) :
    (relText comps).splitOn '/' = comps :=
  List.splitOn_intercalate comps '/' (fun c hc => (hv c hc).2.1) h

theorem applyComponent_valid (base : Path) (c : Text) (h : validName c) :
    applyComponent base c = base ++ [c] := by
  unfold applyComponent
  obtain ⟨h1, _, h3, h4⟩ := h
  have h3' : c ≠ ['.'] := h3
  have h4' : c ≠ ['.', '.'] := h4
  simp [h1, h3', h4']

theorem foldl_applyComponent_valid (comps : List Text) (hv : ∀ c ∈ comps, validName c)
    (base : Path) : comps.foldl applyComponent base = base ++ comps := by
  induction comps generalizing base with
  | nil => simp
  | cons c cs ih =>
    rw [List.foldl_cons, applyComponent_valid base c (hv c (List.mem_cons_self _ _)),
      ih (fun x hx => hv x (List.mem_cons_of_mem _ hx))]
    simp

theorem relText_head (comps : List Text) (h : comps ≠ []) (hv : ∀ c ∈ comps, validName c) :
    (relText comps).head? ≠ some '/' ∧ relText comps ≠ [] := by
  cases comps with
  | nil => exact absurd rfl h
  | cons c cs =>
    obtain ⟨h1, h2, _, _⟩ := hv c (List.mem_cons_self _ _)
    cases c with
    | nil => exact absurd rfl h1
    | cons x xs =>
      have hx : x ≠ '/' := fun e => h2 (by simp [e])
      cases cs with
      | nil => simp [relText, List.intercalate, hx]
      | cons d ds => simp [relText, List.intercalate, hx]

theorem resolve_relText (w : World) (comps : List Text) (h : comps ≠ [])
    (hv : ∀ c ∈ comps, validName c) : w.resolve (relText comps) = w.cwd ++ comps := by
  unfold World.resolve
  rw [splitOn_relText comps h hv, foldl_applyComponent_valid comps hv]
  simp [(relText_head comps h hv).1]

theorem entryAt_relText (w : World) (comps : List Text) (h : comps ≠ [])
    (hv : ∀ c ∈ comps, validName c) : w.entryAt (relText comps) = w.lookup (w.cwd ++ comps) := by
  unfold World.entryAt
  rw [resolve_relText w comps h hv]
  simp [(relText_head comps h hv).2]


theorem countSlash_relText (comps : List Text) (h : comps ≠ [])
    (hv : ∀ c ∈ comps, validName c) : countSlash (relText comps) + 1 = comps.length := by
  induction comps using List.reverseRecOn with
  | nil => exact absurd rfl h
  | append_singleton cs c ih =>
    have hc : List.count '/' c = 0 :=
      List.count_eq_zero.mpr (hv c (by simp)).2.1
    by_cases hcs : cs = []
    · subst hcs
      simp [relText, List.intercalate, countSlash, hc]
    · have := ih hcs (fun x hx => hv x (by simp [hx]))
      rw [relText_snoc cs c hcs]
      unfold countSlash at this ⊢
      simp [List.count_append, List.count_cons, hc]
      omega

theorem cleanStep_valid (rooted : Bool) (out : List Text) (c : Text) (h : validName c) :
    cleanStep rooted out c = out ++ [c] := by
  unfold cleanStep
  obtain ⟨h1, _, h3, h4⟩ := h
  have h3' : c ≠ ['.'] := h3
  have h4' : c ≠ ['.', '.'] := h4
  simp [h1, h3', h4']

theorem cleanStep_nil (rooted : Bool) (out : List Text) : cleanStep rooted out [] = out := by
  simp [cleanStep]

/-- Cleaning a component list whose non-empty members are names keeps exactly
those names. -/
theorem foldl_cleanStep (rooted : Bool) (l : List Text)
    (hv : ∀ c ∈ l, c ≠ [] → validName c) (out : List Text) :
    l.foldl (cleanStep rooted) out = out ++ l.filter (fun c => c ≠ []) := by
  induction l generalizing out with
  | nil => simp
  | cons c cs ih =>
    rw [List.foldl_cons]
    by_cases hc : c = []
    · subst hc
      rw [cleanStep_nil, ih (fun x hx => hv x (List.mem_cons_of_mem _ hx))]
      simp
    · rw [cleanStep_valid rooted out c (hv c (List.mem_cons_self _ _) hc),
        ih (fun x hx => hv x (List.mem_cons_of_mem _ hx))]
      simp [hc]

theorem filter_nonempty_valid (comps : List Text) (hv : ∀ c ∈ comps, validName c) :
    comps.filter (fun c => c ≠ []) = comps := by
  rw [List.filter_eq_self]
  intro c hc
  simpa using (hv c hc).1

theorem Clean_relText (comps : List Text) (h : comps ≠ []) (hv : ∀ c ∈ comps, validName c) :
    Clean (relText comps) = relText comps := by
  obtain ⟨h1, h2⟩ := relText_head comps h hv
  unfold Clean
  rw [if_neg h2, splitOn_relText comps h hv]
  simp only [h1, decide_False]
  rw [foldl_cleanStep false comps (fun c hc _ => hv c hc), filter_nonempty_valid comps hv]
  simp only [List.nil_append, Bool.false_eq_true, if_false]
  exact if_neg h2

theorem Join_relText (comps : List Text) (n : Text) (h : comps ≠ [])
    (hv : ∀ c ∈ comps, validName c) (hn : validName n) :
    Join [relText comps, n] = relText (comps ++ [n]) := by
  have h2 := (relText_head comps h hv).2
  have hj : ['/'].intercalate [relText comps, n] = relText (comps ++ [n]) := by
    rw [relText_snoc comps n h]
    simp [List.intercalate]
  unfold Join
  have hd : List.dropWhile (fun e => decide (e = [])) [relText comps, n] = [relText comps, n] := by
    simp [List.dropWhile, h2]
  rw [hd]
  simp only
  rw [hj]
  exact Clean_relText (comps ++ [n]) (by simp)
    (fun c hc => by
      rcases List.mem_append.mp hc with hc | hc
      · exact hv c hc
      · rw [List.mem_singleton.mp hc]; exact hn)

/-! ### The example decoder -/

theorem decodeBy_fst {α : Type} (table : List (String × (α → α))) (data : Text) (r : α) :
    (decodeBy table data r).1 = r ∨ ∃ kv ∈ table, (decodeBy table data r).1 = kv.2 r := by
  unfold decodeBy
  cases h : table.find? (fun kv => kv.1.toList = data) with
  | none => exact Or.inl rfl
  | some kv => exact Or.inr ⟨kv, List.mem_of_find?_eq_some h, rfl⟩

/-! ### The helpers modelled from the specification -/

theorem readFromFile_ok (w : World) (filepath content : Text)
    (h : ReadFromFile w filepath = .ok content) :
    readFromFile w filepath = .ok (TrimSuffix content ['\n']) := by
  unfold readFromFile
  rw [h]

/-! ### The loop over the numbered text files -/

/-- While the file named by the loop index opens and reads without error, the
loop goes round again with the same index: it never ends. -/
theorem textLoop_same_file (w : World) (lang : Text) (i : Nat) (r : Reader)
    (hopen : Open w ("content/".toList ++ lang ++ "/".toList ++ ("text_".toList ++ Sprint i))
      = .ok r)
    (hread : (readTextualData r).2.2 = none) :
    ∀ (fuel : Nat) (p : Place), Place.textLoop w lang i fuel p = none := by
  intro fuel
  induction fuel with
  | zero => intro p; rfl
  | succ n ih =>
    intro p
    unfold Place.textLoop
    simp only [hopen]
    cases hr : readTextualData r with
    | mk header rest =>
      cases rest with
      | mk content err =>
        rw [hr] at hread
        simp only at hread
        subst hread
        exact ih _

theorem Place_Parse_same_file (J : Json) (fuel : Nat) (w : World) (lang : Text) (p : Place)
    (name quickInfo overview : Text) (r : Reader)
    (h1 : readFromFile w ("content/".toList ++ lang ++ "/name.txt".toList) = .ok name)
    (h2 : readFromFile w ("content/".toList ++ lang ++ "/quick_info.txt".toList) = .ok quickInfo)
    (h3 : readFromFile w ("content/".toList ++ lang ++ "/overview.txt".toList) = .ok overview)
    (hopen : Open w ("content/".toList ++ lang ++ "/".toList ++ ("text_".toList ++ Sprint 0))
      = .ok r)
    (hread : (readTextualData r).2.2 = none) :
    Place.Parse J fuel w lang p = none := by
  unfold Place.Parse
  simp only [h1, h2, h3, textLoop_same_file w lang 0 r hopen hread]

/-! ### A missing collection root -/

theorem resolve_single (w : World) (name : Text) (hn : validName name) :
    w.entryAt name = w.lookup (w.cwd ++ [name]) := by
  have h := entryAt_relText w [name] (by simp) (by simpa using hn)
  simpa [relText, List.intercalate] using h

theorem Section_Parse_places_missing (J : Json) (fuel : Nat) (w : World) (lang : Text)
    (s : Section) (name quickInfo data : Text)
    (h1 : readFromFile w ("content/".toList ++ lang ++ "/name.txt".toList) = .ok name)
    (h2 : readFromFile w ("content/".toList ++ lang ++ "/quick_info.txt".toList) = .ok quickInfo)
    (h3 : readFromFile w "data.json".toList = .ok data)
    (hp : w.lookup (w.cwd ++ ["places".toList]) = none) :
    Section.Parse J fuel w lang s
      = some ({ (J.unmarshalSection data { s with Name := name, QuickInfo := quickInfo }).1
                with Places := [] }, w, none) := by
  have hl : Lstat w "places".toList = .error (Err.notExist "lstat".toList "places".toList) := by
    unfold Lstat
    rw [resolve_single w "places".toList (by decide), hp]
  unfold Section.Parse
  simp only [h1, h2, h3]
  unfold Walk
  simp only [hl]
  rfl

theorem parseTracks_missing (J : Json) (fuel : Nat) (w : World) (lang : Text)
    (h : w.lookup (w.cwd ++ ["tracks".toList]) = none) :
    parseTracks J fuel w lang = some ([], w, none) := by
  unfold parseTracks Stat
  rw [resolve_single w "tracks".toList (by decide), h]
  rfl

theorem parseStories_missing (J : Json) (fuel : Nat) (w : World) (lang : Text)
    (h : w.lookup (w.cwd ++ ["stories".toList]) = none) :
    parseStories J fuel w lang = some ([], w, none) := by
  unfold parseStories Stat
  rw [resolve_single w "stories".toList (by decide), h]
  rfl

theorem parseSections_missing (J : Json) (fuel : Nat) (w : World) (lang : Text)
    (h : w.lookup (w.cwd ++ ["sections".toList]) = none) :
    parseSections J fuel w lang
      = some ([], w, some (Err.wrapped "walk sections".toList
          (Err.wrapped "parse section sections".toList
            (Err.notExist "lstat".toList "sections".toList)))) := by
  have hl : Lstat w "sections".toList
      = .error (Err.notExist "lstat".toList "sections".toList) := by
    unfold Lstat
    rw [resolve_single w "sections".toList (by decide), h]
  unfold parseSections Walk
  simp only [hl]
  rfl

/-! ### Image paths -/

theorem ite_map_congr {α β : Type} (c : Prop) [Decidable c] (f g : α → β) (l : List α)
    (h : ∀ x ∈ l, f x = g x) :
    (if c then l.map f else []) = (if c then l.map g else []) := by
  split
  · exact List.map_congr_left h
  · rfl

theorem intercalate_append (sep : Text) (xs ys : List Text) (hx : xs ≠ []) (hy : ys ≠ []) :
    sep.intercalate (xs ++ ys) = sep.intercalate xs ++ sep ++ sep.intercalate ys := by
  induction ys using List.reverseRecOn with
  | nil => exact absurd rfl hy
  | append_singleton zs z ih =>
    by_cases hz : zs = []
    · subst hz
      rw [List.nil_append, intercalate_snoc sep xs z hx]
      simp [List.intercalate]
    · rw [← List.append_assoc, intercalate_snoc sep (xs ++ zs) z (by simp [hx]), ih hz,
        intercalate_snoc sep zs z hz]
      simp

theorem absText_eq (comps : Path) (h : comps ≠ []) : absText comps = '/' :: relText comps := by
  induction comps with
  | nil => exact absurd rfl h
  | cons c cs ih =>
    by_cases hcs : cs = []
    · subst hcs
      simp [absText, relText, List.intercalate]
    · have e : relText (c :: cs) = c ++ '/' :: relText cs := by
        have := intercalate_append ['/'] [c] cs (by simp) hcs
        simpa [relText, List.intercalate] using this
      have a : absText (c :: cs) = '/' :: c ++ absText cs := by
        simp [absText]
      rw [a, ih hcs, e]
      rfl

theorem validName_webp (image : Text) (h : '/' ∉ image) :
    validName (image ++ ".webp".toList) := by
  refine ⟨by simp, ?_, ?_, ?_⟩
  · intro hm
    rcases List.mem_append.mp hm with hm | hm
    · exact h hm
    · revert hm; decide
  · intro e
    have := congrArg List.length e
    simp at this
  · intro e
    have := congrArg List.length e
    simp at this

theorem intercalate_rootedHead (w : World) :
    ['/'].intercalate (rootedHead w.cwd) = cwdText w := by
  unfold rootedHead cwdText
  by_cases h : w.cwd = []
  · simp [h, List.intercalate]
  · simp only [h, if_false]
    rw [absText_eq _ h]
    have := intercalate_append ['/'] [[]] w.cwd (by simp) h
    simpa [relText, List.intercalate] using this

theorem filter_rootedHead (cwd : Path) (hv : ∀ c ∈ cwd, validName c) :
    (rootedHead cwd).filter (fun c => c ≠ []) = cwd := by
  unfold rootedHead
  by_cases h : cwd = []
  · simp [h]
  · simp only [h, if_false]
    rw [List.filter_cons]
    simp only [ne_eq, not_true_eq_false, decide_False, Bool.false_eq_true, if_false]
    exact filter_nonempty_valid cwd hv

/-- The path computed for an image identifier without `/`, seen from the
working directory, is `<cwd>/images/<tier>/<identifier>.webp`. -/
theorem imagePathOf_plain (w : World) (hv : ∀ c ∈ w.cwd, validName c) (quality : Quality)
    (hq : validName (qualityDir quality)) (image : Text) (hi : '/' ∉ image) :
    imagePathOf (cwdText w) quality image
      = absText (w.cwd ++ ["images".toList, qualityDir quality, image ++ ".webp".toList]) := by
  have hf := validName_webp image hi
  let tail : List Text := ["images".toList, [], qualityDir quality, [], image ++ ".webp".toList]
  let L : List Text := rootedHead w.cwd ++ tail
  have hp : rootedHead w.cwd ≠ [] := by simp [rootedHead]
  have hcw : cwdText w ≠ [] := by
    unfold cwdText
    by_cases h : w.cwd = []
    · simp [h]
    · simp only [h, if_false]
      rw [absText_eq _ h]
      simp
  have hS : ['/'].intercalate [cwdText w, "images/".toList, qualityDir quality,
      "/".toList ++ image ++ ".webp".toList] = ['/'].intercalate L := by
    show _ = ['/'].intercalate (rootedHead w.cwd ++ tail)
    rw [intercalate_append ['/'] (rootedHead w.cwd) tail hp (by simp [tail]),
      intercalate_rootedHead]
    simp [tail, List.intercalate]
  have hLslash : ∀ l ∈ L, '/' ∉ l := by
    intro l hl
    rcases List.mem_append.mp hl with hl | hl
    · unfold rootedHead at hl
      rcases List.mem_cons.mp hl with rfl | hl
      · simp
      · by_cases h : w.cwd = []
        · simp [h] at hl
          subst hl
          simp
        · simp only [h, if_false] at hl
          exact (hv l hl).2.1
    · simp only [tail, List.mem_cons, List.mem_singleton, List.not_mem_nil, or_false] at hl
      rcases hl with rfl | rfl | rfl | rfl | rfl
      · decide
      · simp
      · exact hq.2.1
      · simp
      · exact hf.2.1
  have hLvalid : ∀ c ∈ L, c ≠ [] → validName c := by
    intro l hl hne
    rcases List.mem_append.mp hl with hl | hl
    · unfold rootedHead at hl
      rcases List.mem_cons.mp hl with rfl | hl
      · exact absurd rfl hne
      · by_cases h : w.cwd = []
        · simp [h] at hl
          exact absurd hl hne
        · simp only [h, if_false] at hl
          exact hv l hl
    · simp only [tail, List.mem_cons, List.mem_singleton, List.not_mem_nil, or_false] at hl
      rcases hl with rfl | rfl | rfl | rfl | rfl
      · decide
      · exact absurd rfl hne
      · exact hq
      · exact absurd rfl hne
      · exact hf
  have hfilter : L.filter (fun c => c ≠ [])
      = w.cwd ++ ["images".toList, qualityDir quality, image ++ ".webp".toList] := by
    show (rootedHead w.cwd ++ tail).filter _ = _
    rw [List.filter_append, filter_rootedHead w.cwd hv]
    congr 1
    simp [tail, List.filter_cons, hq.1, hf.1]
  have hhead : (['/'].intercalate L).head? = some '/' := by
    rw [← hS]
    have : (cwdText w).head? = some '/' := by
      unfold cwdText
      by_cases h : w.cwd = []
      · simp [h]
      · simp only [h, if_false]
        rw [absText_eq _ h]
        simp
    cases hc : cwdText w with
    | nil => exact absurd hc hcw
    | cons x xs =>
      rw [hc] at this
      simp only [List.head?_cons, Option.some.injEq] at this
      subst this
      simp [List.intercalate]
  have hne : ['/'].intercalate L ≠ [] := by
    intro e
    rw [e] at hhead
    simp at hhead
  unfold imagePathOf Join
  have hd : List.dropWhile (fun e => decide (e = []))
      [cwdText w, "images/".toList, qualityDir quality, "/".toList ++ image ++ ".webp".toList]
      = [cwdText w, "images/".toList, qualityDir quality, "/".toList ++ image ++ ".webp".toList] := by
    simp [List.dropWhile, hcw]
  rw [hd]
  simp only
  rw [hS]
  unfold Clean
  rw [if_neg hne, List.splitOn_intercalate L '/' hLslash (by simp [L, hp])]
  simp only [hhead, decide_True, if_true]
  rw [foldl_cleanStep true L hLvalid, hfilter, List.nil_append]
  rw [absText_eq _ (by simp)]
  simp [relText]

theorem Place_foldl_addImagePath (w : World) (cwd : Text) (quality : Quality)
    (images : List Text) (p : Place) :
    (images.foldl (Place.addImagePath w cwd quality) p).imagesPaths
        = p.imagesPaths ++ images.map (imagePathOf cwd quality) ∧
      (images.foldl (Place.addImagePath w cwd quality) p).toPlaceData = p.toPlaceData := by
  induction images generalizing p with
  | nil => simp
  | cons image rest ih =>
    rw [List.foldl_cons]
    have h1 : (Place.addImagePath w cwd quality p image).imagesPaths
        = p.imagesPaths ++ [imagePathOf cwd quality image] := by
      unfold Place.addImagePath imagePathOf
      simp only
      split <;> rfl
    have h2 : (Place.addImagePath w cwd quality p image).toPlaceData = p.toPlaceData := by
      unfold Place.addImagePath
      simp only
      split <;> rfl
    obtain ⟨i1, i2⟩ := ih (Place.addImagePath w cwd quality p image)
    rw [i1, i2, h1, h2]
    simp

theorem Place_makeImagesPaths_fail (w : World) (quality : Quality) (p : Place) (e : Err)
    (hwd : w.getwdErr = some e) : Place.makeImagesPaths w quality p = (p, some e) := by
  unfold Place.makeImagesPaths Getwd
  simp only [hwd]

theorem Place_makeImagesPaths_eq (w : World) (quality : Quality) (p : Place) :
    (Place.makeImagesPaths w quality p).2 = w.getwdErr ∧
      (Place.makeImagesPaths w quality p).1.imagesPaths
        = p.imagesPaths ++
          (if w.getwdErr = none then p.Images.map (imagePathOf (cwdText w) quality) else []) ∧
      (Place.makeImagesPaths w quality p).1.toPlaceData = p.toPlaceData := by
  cases hwd : w.getwdErr with
  | some e =>
    rw [Place_makeImagesPaths_fail w quality p e hwd]
    simp
  | none =>
    unfold Place.makeImagesPaths Getwd
    simp only [hwd, if_true]
    have := Place_foldl_addImagePath w (cwdText w) quality p.Images p
    exact ⟨trivial, this.1, this.2⟩

theorem Story_makeImagesPaths_fail (w : World) (quality : Quality) (s : Story) (e : Err)
    (hwd : w.getwdErr = some e) : Story.makeImagesPaths w quality s = (s, some e) := by
  unfold Story.makeImagesPaths Getwd
  simp only [hwd]

theorem Story_makeImagesPaths_eq (w : World) (quality : Quality) (s : Story) :
    (Story.makeImagesPaths w quality s).2 = w.getwdErr ∧
      (Story.makeImagesPaths w quality s).1.imagesPaths
        = s.imagesPaths ++
          (if w.getwdErr = none then s.Images.map (imagePathOf (cwdText w) quality) else []) ∧
      (Story.makeImagesPaths w quality s).1.toStoryData = s.toStoryData := by
  cases hwd : w.getwdErr with
  | some e =>
    rw [Story_makeImagesPaths_fail w quality s e hwd]
    simp
  | none =>
  unfold Story.makeImagesPaths Getwd
  simp only [hwd, if_true]
  have key : ∀ (images : List Text) (s : Story),
      (images.foldl (fun s image =>
        { s with imagesPaths := s.imagesPaths ++ [Join [cwdText w, "images/".toList,
          qualityDir quality, "/".toList ++ image ++ ".webp".toList]] }) s).imagesPaths
        = s.imagesPaths ++ images.map (imagePathOf (cwdText w) quality) ∧
      (images.foldl (fun s image =>
        { s with imagesPaths := s.imagesPaths ++ [Join [cwdText w, "images/".toList,
          qualityDir quality, "/".toList ++ image ++ ".webp".toList]] }) s).toStoryData
        = s.toStoryData := by
    intro images
    induction images with
    | nil => intro s; simp
    | cons image rest ih =>
      intro s
      rw [List.foldl_cons]
      obtain ⟨i1, i2⟩ := ih { s with imagesPaths := s.imagesPaths ++ [Join [cwdText w,
        "images/".toList, qualityDir quality, "/".toList ++ image ++ ".webp".toList]] }
      rw [i1, i2]
      simp [imagePathOf]
  exact ⟨trivial, (key s.Images s).1, (key s.Images s).2⟩

theorem textLoop_imagesPaths (w : World) (lang : Text) (i : Nat) :
    ∀ (fuel : Nat) (p p' : Place) (err : Option Err),
      Place.textLoop w lang i fuel p = some (p', err) → p'.imagesPaths = p.imagesPaths := by
  intro fuel
  induction fuel with
  | zero => intro p p' err h; simp [Place.textLoop] at h
  | succ n ih =>
    intro p p' err h
    unfold Place.textLoop at h
    simp only at h
    split at h
    · split at h
      · simp only [Option.some.injEq, Prod.mk.injEq] at h
        rw [← h.1]
      · split at h
        · simp only [Option.some.injEq, Prod.mk.injEq] at h
          rw [← h.1]
        · exact (ih _ _ _ h).trans rfl
    · split at h
      · simp only [Option.some.injEq, Prod.mk.injEq] at h
        rw [← h.1]
      · exact (ih _ _ _ h).trans rfl

/-- What a successful `Place.Parse` went through. -/
theorem Place_Parse_ok (J : Json) (fuel : Nat) (w : World) (lang : Text)
    (p p' : Place) (h : Place.Parse J fuel w lang p = some (p', none)) :
    ∃ (name quickInfo overview data : Text) (p3 : Place) (d : PlaceData),
      readFromFile w ("content/".toList ++ lang ++ "/name.txt".toList) = .ok name ∧
      readFromFile w ("content/".toList ++ lang ++ "/quick_info.txt".toList) = .ok quickInfo ∧
      readFromFile w ("content/".toList ++ lang ++ "/overview.txt".toList) = .ok overview ∧
      Place.textLoop w lang 0 fuel
        { p with Name := name, QuickInfo := quickInfo, Overview := overview } = some (p3, none) ∧
      readFromFile w "data.json".toList = .ok data ∧
      J.unmarshalPlace data p3.toPlaceData = (d, none) ∧
      p' = (Place.makeImagesPaths w Compressed { p3 with toPlaceData := d }).1 := by
  unfold Place.Parse at h
  cases h1 : readFromFile w ("content/".toList ++ lang ++ "/name.txt".toList) with
  | error e => simp only [h1] at h; simp at h
  | ok name =>
    cases h2 : readFromFile w ("content/".toList ++ lang ++ "/quick_info.txt".toList) with
    | error e => simp only [h1, h2] at h; simp at h
    | ok quickInfo =>
      cases h3 : readFromFile w ("content/".toList ++ lang ++ "/overview.txt".toList) with
      | error e => simp only [h1, h2, h3] at h; simp at h
      | ok overview =>
        simp only [h1, h2, h3] at h
        generalize hl : Place.textLoop w lang 0 fuel _ = r at h
        cases r with
        | none => simp at h
        | some r =>
          obtain ⟨p3, e3⟩ := r
          cases e3 with
          | some e => simp at h
          | none =>
            simp only at h
            cases h4 : readFromFile w "data.json".toList with
            | error e => simp only [h4] at h; simp at h
            | ok data =>
              simp only [h4] at h
              cases h5 : J.unmarshalPlace data p3.toPlaceData with
              | mk d e5 =>
                cases e5 with
                | some msg => simp only [h5] at h; simp at h
                | none =>
                  simp only [h5, Option.some.injEq, Prod.mk.injEq, and_true] at h
                  exact ⟨name, quickInfo, overview, data, p3, d, rfl, rfl, rfl, hl, rfl, h5, h.symm⟩

theorem Place_Parse_imagesPaths (J : Json) (fuel : Nat) (w : World) (lang : Text)
    (p p' : Place) (h : Place.Parse J fuel w lang p = some (p', none)) :
    p'.imagesPaths = p.imagesPaths ++
      (if w.getwdErr = none then p'.Images.map (imagePathOf (cwdText w) Compressed)
        else []) := by
  obtain ⟨name, quickInfo, overview, data, p3, d, _, _, _, hl, _, _, hp⟩ :=
    Place_Parse_ok J fuel w lang p p' h
  have hp3 := textLoop_imagesPaths w lang 0 fuel _ _ _ hl
  obtain ⟨_, h2, h3⟩ := Place_makeImagesPaths_eq w Compressed { p3 with toPlaceData := d }
  rw [hp, h2, h3]
  simp only
  rw [hp3]

/-- What a successful `Story.Parse` went through. -/
theorem Story_Parse_ok (J : Json) (w : World) (lang : Text)
    (s s' : Story) (h : Story.Parse J w lang s = (s', none)) :
    ∃ (name data : Text) (d : StoryData),
      readFromFile w (lang ++ "/name.txt".toList) = .ok name ∧
      readFromFile w "data.json".toList = .ok data ∧
      J.unmarshalStory data { s with Name := name }.toStoryData = (d, none) ∧
      s' = (Story.makeImagesPaths w Compressed { s with toStoryData := d }).1 := by
  unfold Story.Parse at h
  cases h1 : readFromFile w (lang ++ "/name.txt".toList) with
  | error e => simp only [h1] at h; simp at h
  | ok name =>
    cases h2 : readFromFile w "data.json".toList with
    | error e => simp only [h1, h2] at h; simp at h
    | ok data =>
      simp only [h1, h2] at h
      cases h5 : J.unmarshalStory data { s with Name := name }.toStoryData with
      | mk d e5 =>
        cases e5 with
        | some msg => simp only [h5] at h; simp at h
        | none =>
          simp only [h5, Prod.mk.injEq, and_true] at h
          exact ⟨name, data, d, rfl, rfl, h5, h.symm⟩

theorem Story_Parse_imagesPaths (J : Json) (w : World) (lang : Text)
    (s s' : Story) (h : Story.Parse J w lang s = (s', none)) :
    s'.imagesPaths = s.imagesPaths ++
      (if w.getwdErr = none then s'.Images.map (imagePathOf (cwdText w) Compressed)
        else []) := by
  obtain ⟨name, data, d, _, _, _, hp⟩ := Story_Parse_ok J w lang s s' h
  obtain ⟨_, h2, h3⟩ := Story_makeImagesPaths_eq w Compressed { s with toStoryData := d }
  rw [hp, h2, h3]

/-! ### The tree -/

theorem findEntry_some_mem (files : List (Path × Entry)) (p : Path) (e : Entry)
    (h : findEntry files p = some e) : ∃ kv ∈ files, kv.1 = p := by
  induction files with
  | nil => simp [findEntry] at h
  | cons kv rest ih =>
    unfold findEntry at h
    by_cases hk : kv.1 = p
    · exact ⟨kv, List.mem_cons_self _ _, hk⟩
    · simp only [hk, if_false] at h
      obtain ⟨kv', hm, hk'⟩ := ih h
      exact ⟨kv', List.mem_cons_of_mem _ hm, hk'⟩

theorem findEntry_of_mem (files : List (Path × Entry)) (p : Path)
    (h : ∃ kv ∈ files, kv.1 = p) : ∃ e, findEntry files p = some e := by
  induction files with
  | nil =>
    obtain ⟨kv, hm, _⟩ := h
    cases hm
  | cons kv rest ih =>
    unfold findEntry
    by_cases hk : kv.1 = p
    · exact ⟨kv.2, by simp [hk]⟩
    · simp only [hk, if_false]
      obtain ⟨kv', hm, hk'⟩ := h
      rcases List.mem_cons.mp hm with rfl | hm
      · exact absurd hk' hk
      · exact ih ⟨kv', hm, hk'⟩

theorem length_le_foldr_max (files : List (Path × Entry)) (kv : Path × Entry)
    (h : kv ∈ files) : kv.1.length ≤ (files.map (fun kv => kv.1.length)).foldr max 0 := by
  induction files with
  | nil => cases h
  | cons x xs ih =>
    simp only [List.map_cons, List.foldr_cons]
    rcases List.mem_cons.mp h with rfl | h
    · exact Nat.le_max_left _ _
    · exact Nat.le_trans (ih h) (Nat.le_max_right _ _)

theorem length_le_depth (w : World) (kv : Path × Entry) (h : kv ∈ w.files) :
    kv.1.length ≤ w.depth :=
  length_le_foldr_max w.files kv h

theorem lookup_some_length (w : World) (p : Path) (e : Entry) (h : w.lookup p = some e) :
    p.length ≤ w.depth := by
  unfold World.lookup at h
  by_cases hp : p = []
  · simp [hp]
  · simp only [hp, if_false] at h
    obtain ⟨kv, hm, hk⟩ := findEntry_some_mem _ _ _ h
    rw [← hk]
    exact length_le_depth w kv hm

theorem mem_childNames (files : List (Path × Entry)) (dir : Path) (n : Text) :
    n ∈ childNames files dir ↔ ∃ kv ∈ files, kv.1 = dir ++ [n] := by
  unfold childNames
  rw [List.mem_filterMap]
  constructor
  · rintro ⟨kv, hm, h⟩
    refine ⟨kv, hm, ?_⟩
    by_cases hc : kv.1 ≠ [] ∧ kv.1.dropLast = dir
    · rw [if_pos hc] at h
      have := List.dropLast_append_getLast? n h
      rw [hc.2] at this
      exact this.symm
    · rw [if_neg hc] at h
      simp at h
  · rintro ⟨kv, hm, h⟩
    refine ⟨kv, hm, ?_⟩
    have hc : kv.1 ≠ [] ∧ kv.1.dropLast = dir := by
      rw [h]
      simp
    rw [if_pos hc, h]
    simp

theorem mem_names (w : World) (dir : Path) (n : Text) :
    n ∈ w.names dir ↔ ∃ kv ∈ w.files, kv.1 = dir ++ [n] := by
  unfold World.names
  rw [(List.perm_insertionSort _ _).mem_iff, List.mem_dedup, mem_childNames]

/-- A listed name is an entry name and names an entry. -/
theorem names_spec (w : World) (hw : w.WF) (dir : Path) (n : Text) (h : n ∈ w.names dir) :
    validName n ∧ ∃ e, w.lookup (dir ++ [n]) = some e := by
  obtain ⟨kv, hm, hk⟩ := (mem_names w dir n).mp h
  refine ⟨hw.1 kv hm n (by rw [hk]; simp), ?_⟩
  unfold World.lookup
  simp only [List.append_eq_nil, List.cons_ne_self, and_false, if_false]
  exact findEntry_of_mem _ _ ⟨kv, hm, hk⟩

theorem Lstat_relText (w : World) (comps : List Text) (h : comps ≠ [])
    (hv : ∀ c ∈ comps, validName c) :
    Lstat w (relText comps) =
      match w.lookup (w.cwd ++ comps) with
      | none => .error (Err.notExist "lstat".toList (relText comps))
      | some (Entry.file _) => .ok ⟨false⟩
      | some Entry.dir => .ok ⟨true⟩ := by
  unfold Lstat
  rw [entryAt_relText w comps h hv]

theorem readDirNames_relText (w : World) (comps : List Text) (h : comps ≠ [])
    (hv : ∀ c ∈ comps, validName c) (hd : w.lookup (w.cwd ++ comps) = some Entry.dir) :
    readDirNames w (relText comps) = .ok (w.names (w.cwd ++ comps)) := by
  unfold readDirNames
  rw [entryAt_relText w comps h hv, hd, resolve_relText w comps h hv]

theorem Chdir_relText (w : World) (comps : List Text) (h : comps ≠ [])
    (hv : ∀ c ∈ comps, validName c) (hd : w.lookup (w.cwd ++ comps) = some Entry.dir) :
    Chdir w (relText comps) = (w.cd comps, none) := by
  unfold Chdir
  rw [entryAt_relText w comps h hv, hd, resolve_relText w comps h hv]
  rfl

theorem Chdir_up2 (w : World) (a b : Text) (hd : w.lookup w.cwd = some Entry.dir) :
    Chdir (w.cd [a, b]) "../..".toList = (w, none) := by
  have hr : (w.cd [a, b]).resolve "../..".toList = w.cwd := by
    unfold World.resolve
    have hs : "../..".toList.splitOn '/' = ["..".toList, "..".toList] := by decide
    rw [hs]
    simp [World.cd, applyComponent, List.dropLast_concat]
  unfold Chdir World.entryAt
  rw [hr]
  have hl : (w.cd [a, b]).lookup w.cwd = some Entry.dir := hd
  simp only [hl]
  simp [World.cd]

/-! ### `filepath.Walk` -/

theorem relText_singleton (x : Text) : relText [x] = x := by
  simp [relText, List.intercalate]

theorem Lstat_ok (w : World) (comps : List Text) (h : comps ≠ [])
    (hv : ∀ c ∈ comps, validName c) (info : FileInfo)
    (hl : Lstat w (relText comps) = .ok info) :
    (∃ e, w.lookup (w.cwd ++ comps) = some e) ∧
      (info.isDir = true → w.lookup (w.cwd ++ comps) = some Entry.dir) := by
  rw [Lstat_relText w comps h hv] at hl
  cases hk : w.lookup (w.cwd ++ comps) with
  | none => rw [hk] at hl; simp at hl
  | some e =>
    rw [hk] at hl
    cases e with
    | file c =>
      simp only [Except.ok.injEq] at hl
      refine ⟨⟨_, rfl⟩, fun hi => ?_⟩
      rw [← hl] at hi
      simp at hi
    | dir => exact ⟨⟨_, rfl⟩, fun _ => rfl⟩

theorem Lstat_of_lookup (w : World) (comps : List Text) (h : comps ≠ [])
    (hv : ∀ c ∈ comps, validName c) (e : Entry) (hk : w.lookup (w.cwd ++ comps) = some e) :
    ∃ info, Lstat w (relText comps) = .ok info := by
  rw [Lstat_relText w comps h hv, hk]
  cases e with
  | file c => exact ⟨_, rfl⟩
  | dir => exact ⟨_, rfl⟩

/-- The loop over the names of a directory does nothing when the recursive
walk does nothing on each entry. -/
theorem walkNames_deep {σ : Type} (fn : WalkFunc σ)
    (walkRec : Text → FileInfo → World × σ → Option ((World × σ) × Option Err))
    (w : World) (a : σ) (comps : List Text) (hc : comps ≠ [])
    (hv : ∀ c ∈ comps, validName c)
    (H : ∀ (n : Text) (info : FileInfo), validName n →
      Lstat w (relText (comps ++ [n])) = .ok info →
      walkRec (relText (comps ++ [n])) info (w, a) = some ((w, a), none)) :
    ∀ names : List Text,
      (∀ n ∈ names, validName n ∧ ∃ e, w.lookup (w.cwd ++ comps ++ [n]) = some e) →
      walkNames walkRec fn (relText comps) names (w, a) = some ((w, a), none) := by
  intro names
  induction names with
  | nil => intro _; rfl
  | cons n ns ih =>
    intro hn
    obtain ⟨hvn, e, he⟩ := hn n (List.mem_cons_self _ _)
    have hv' : ∀ c ∈ comps ++ [n], validName c := by
      intro c hc'
      rcases List.mem_append.mp hc' with hc' | hc'
      · exact hv c hc'
      · rw [List.mem_singleton.mp hc']; exact hvn
    have he' : w.lookup (w.cwd ++ (comps ++ [n])) = some e := by
      rw [← List.append_assoc]; exact he
    obtain ⟨info, hl⟩ := Lstat_of_lookup w (comps ++ [n]) (by simp) hv' e he'
    unfold walkNames
    simp only [Join_relText comps n hc hv hvn, hl, H n info hvn hl]
    exact ih (fun m hm => hn m (List.mem_cons_of_mem _ hm))

/-- Below the first level the walk changes nothing and reports no error. -/
theorem walk_deep {σ : Type} (fn : WalkFunc σ) (hfn : Deep fn) (w : World) (hw : w.WF) :
    ∀ (fuel : Nat) (comps : List Text) (info : FileInfo) (a : σ),
      3 ≤ comps.length → (∀ c ∈ comps, validName c) →
      Lstat w (relText comps) = .ok info →
      w.depth < fuel + (w.cwd.length + comps.length) →
      walk fn fuel (relText comps) info (w, a) = some ((w, a), none) := by
  intro fuel
  induction fuel with
  | zero =>
    intro comps info a h3 hv hl hd
    have hc : comps ≠ [] := by intro e; rw [e] at h3; simp at h3
    obtain ⟨⟨e, he⟩, _⟩ := Lstat_ok w comps hc hv info hl
    have := lookup_some_length w _ e he
    rw [List.length_append] at this
    omega
  | succ n ih =>
    intro comps info a h3 hv hl hd
    have hc : comps ≠ [] := by intro e; rw [e] at h3; simp at h3
    have hcs : 2 ≤ countSlash (relText comps) := by
      have := countSlash_relText comps hc hv
      omega
    obtain ⟨_, hdir⟩ := Lstat_ok w comps hc hv info hl
    unfold walk
    by_cases hi : info.isDir = false
    · rw [if_pos hi]
      exact hfn _ _ _ hcs
    · rw [if_neg hi]
      have hi' : info.isDir = true := by simpa using hi
      simp only [readDirNames_relText w comps hc hv (hdir hi'), hfn _ info (w, a) hcs]
      apply walkNames_deep fn (walk fn n) w a comps hc hv
      · intro m info' hm hl'
        apply ih (comps ++ [m]) info' a
        · simp; omega
        · intro c hc'
          rcases List.mem_append.mp hc' with hc' | hc'
          · exact hv c hc'
          · rw [List.mem_singleton.mp hc']; exact hm
        · exact hl'
        · simp only [List.length_append, List.length_singleton]; omega
      · intro m hm
        exact names_spec w hw (w.cwd ++ comps) m hm

/-- The walk on a directory of the first level: the walk function is called on
it, and when that succeeds without moving the world, nothing else happens. -/
theorem walk_child_ok {σ : Type} (fn : WalkFunc σ) (hfn : Deep fn) (w : World) (hw : w.WF)
    (root n : Text) (hr : validName root) (hn : validName n)
    (hd : w.lookup (w.cwd ++ [root, n]) = some Entry.dir)
    (f : Nat) (hf : w.depth < f + (w.cwd.length + 2)) (a a' : σ)
    (hstep : fn (relText [root, n]) (some ⟨true⟩) none (w, a) = some ((w, a'), none)) :
    walk fn f (relText [root, n]) ⟨true⟩ (w, a) = some ((w, a'), none) := by
  have hv : ∀ c ∈ [root, n], validName c := by
    intro c hc
    simp only [List.mem_cons, List.mem_singleton, List.not_mem_nil, or_false] at hc
    rcases hc with rfl | rfl
    · exact hr
    · exact hn
  have hlen := lookup_some_length w _ _ hd
  simp only [List.length_append, List.length_cons, List.length_nil] at hlen
  obtain ⟨g, rfl⟩ : ∃ g, f = g + 1 := ⟨f - 1, by omega⟩
  unfold walk
  simp only [Bool.true_eq_false, if_false, readDirNames_relText w [root, n] (by simp) hv hd,
    hstep]
  apply walkNames_deep fn (walk fn g) w a' [root, n] (by simp) hv
  · intro m info' hm hl'
    apply walk_deep fn hfn w hw g ([root, n] ++ [m]) info' a'
    · simp
    · intro c hc'
      rcases List.mem_append.mp hc' with hc' | hc'
      · exact hv c hc'
      · rw [List.mem_singleton.mp hc']; exact hm
    · exact hl'
    · simp only [List.length_append, List.length_cons, List.length_nil]; omega
  · intro m hm
    exact names_spec w hw (w.cwd ++ [root, n]) m hm

theorem walk_child_err {σ : Type} (fn : WalkFunc σ) (w : World)
    (root n : Text) (hr : validName root) (hn : validName n)
    (hd : w.lookup (w.cwd ++ [root, n]) = some Entry.dir)
    (f : Nat) (hf : w.depth < f + (w.cwd.length + 2)) (a : σ) (s : World × σ) (err : Err)
    (hstep : fn (relText [root, n]) (some ⟨true⟩) none (w, a) = some (s, some err)) :
    walk fn f (relText [root, n]) ⟨true⟩ (w, a) = some (s, some err) := by
  have hv : ∀ c ∈ [root, n], validName c := by
    intro c hc
    simp only [List.mem_cons, List.mem_singleton, List.not_mem_nil, or_false] at hc
    rcases hc with rfl | rfl
    · exact hr
    · exact hn
  have hlen := lookup_some_length w _ _ hd
  simp only [List.length_append, List.length_cons, List.length_nil] at hlen
  obtain ⟨g, rfl⟩ : ∃ g, f = g + 1 := ⟨f - 1, by omega⟩
  unfold walk
  simp only [Bool.true_eq_false, if_false, readDirNames_relText w [root, n] (by simp) hv hd,
    hstep]

theorem valid_pair (root n : Text) (hr : validName root) (hn : validName n) :
    ∀ c ∈ [root, n], validName c := by
  intro c hc
  simp only [List.mem_cons, List.mem_singleton, List.not_mem_nil, or_false] at hc
  rcases hc with rfl | rfl
  · exact hr
  · exact hn

theorem Lstat_child (w : World) (root n : Text) (hr : validName root) (hn : validName n)
    (hd : w.lookup (w.cwd ++ [root, n]) = some Entry.dir) :
    Lstat w (relText [root, n]) = .ok ⟨true⟩ := by
  rw [Lstat_relText w [root, n] (by simp) (valid_pair root n hr hn), hd]

theorem Join_child (root n : Text) (hr : validName root) (hn : validName n) :
    Join [relText [root], n] = relText [root, n] :=
  Join_relText [root] n (by simp) (by simpa using hr) hn

/-- The loop over the entries of a collection root, as long as the entries are
directories on which the walk function succeeds, appending one entity each and
leaving the world as it was. -/
theorem walkNames_level1 {E : Type} (fn : WalkFunc (List E)) (hfn : Deep fn) (w : World)
    (hw : w.WF) (root : Text) (hr : validName root) (f : Nat)
    (hf : w.depth < f + (w.cwd.length + 2)) (e : Text → E) :
    ∀ pre : List Text,
      (∀ n ∈ pre, validName n ∧ w.lookup (w.cwd ++ [root, n]) = some Entry.dir) →
      (∀ n ∈ pre, ∀ acc : List E,
        fn (relText [root, n]) (some ⟨true⟩) none (w, acc) = some ((w, acc ++ [e n]), none)) →
      ∀ (rest : List Text) (acc : List E),
        walkNames (walk fn f) fn (relText [root]) (pre ++ rest) (w, acc)
          = walkNames (walk fn f) fn (relText [root]) rest (w, acc ++ pre.map e) := by
  intro pre
  induction pre with
  | nil => intro _ _ rest acc; simp
  | cons n ns ih =>
    intro hd hstep rest acc
    obtain ⟨hn, hdn⟩ := hd n (List.mem_cons_self _ _)
    have hwalk := walk_child_ok fn hfn w hw root n hr hn hdn f hf acc (acc ++ [e n])
      (hstep n (List.mem_cons_self _ _) acc)
    rw [List.cons_append]
    conv => lhs; unfold walkNames
    simp only [Join_child root n hr hn, Lstat_child w root n hr hn hdn, hwalk]
    rw [ih (fun m hm => hd m (List.mem_cons_of_mem _ hm))
      (fun m hm => hstep m (List.mem_cons_of_mem _ hm)) rest (acc ++ [e n])]
    simp

/-- The loop stops at the first entry on which the walk function fails. -/
theorem walkNames_level1_err {E : Type} (fn : WalkFunc (List E)) (w : World)
    (root k : Text) (hr : validName root) (hk : validName k)
    (hdk : w.lookup (w.cwd ++ [root, k]) = some Entry.dir) (f : Nat)
    (hf : w.depth < f + (w.cwd.length + 2)) (post : List Text) (acc : List E)
    (s : World × List E) (err : Err)
    (hstep : fn (relText [root, k]) (some ⟨true⟩) none (w, acc) = some (s, some err)) :
    walkNames (walk fn f) fn (relText [root]) (k :: post) (w, acc) = some (s, some err) := by
  have hwalk := walk_child_err fn w root k hr hk hdk f hf acc s err hstep
  unfold walkNames
  simp only [Join_child root k hr hk, Lstat_child w root k hr hk hdk, hwalk]

/-- Go's `Walk` on an existing collection root, when the walk function does nothing
on the root itself: the loop over the root's entries. -/
theorem Walk_root {σ : Type} (fn : WalkFunc σ) (w : World) (root : Text) (hr : validName root)
    (hroot : w.lookup (w.cwd ++ [root]) = some Entry.dir) (a : σ)
    (h0 : fn root (some ⟨true⟩) none (w, a) = some ((w, a), none)) (f : Nat) :
    Walk (f + 1) root fn (w, a)
      = walkNames (walk fn f) fn (relText [root]) (w.names (w.cwd ++ [root])) (w, a) := by
  have hv : ∀ c ∈ [root], validName c := by simpa using hr
  have hl : Lstat w root = .ok ⟨true⟩ := by
    have := Lstat_relText w [root] (by simp) hv
    rw [relText_singleton, hroot] at this
    exact this
  have hrd := readDirNames_relText w [root] (by simp) hv hroot
  rw [relText_singleton] at hrd
  unfold Walk
  simp only [hl]
  unfold walk
  simp only [Bool.true_eq_false, if_false, hrd, h0, relText_singleton]

/-- Walking a collection whose entries are all directories on which the walk
function succeeds: one entity per entry, in the order of the listing. -/
theorem Walk_collection_ok {E : Type} (fn : WalkFunc (List E)) (hfn : Deep fn) (w : World)
    (hw : w.WF) (root : Text) (hr : validName root)
    (hroot : w.lookup (w.cwd ++ [root]) = some Entry.dir)
    (h0 : fn root (some ⟨true⟩) none (w, []) = some ((w, []), none))
    (fuel : Nat) (hfuel : w.depth ≤ fuel) (e : Text → E)
    (hdirs : ∀ n ∈ w.names (w.cwd ++ [root]), w.lookup (w.cwd ++ [root, n]) = some Entry.dir)
    (hstep : ∀ n ∈ w.names (w.cwd ++ [root]), ∀ acc : List E,
      fn (relText [root, n]) (some ⟨true⟩) none (w, acc) = some ((w, acc ++ [e n]), none)) :
    Walk fuel root fn (w, []) = some ((w, (w.names (w.cwd ++ [root])).map e), none) := by
  have hlen := lookup_some_length w _ _ hroot
  simp only [List.length_append, List.length_cons, List.length_nil] at hlen
  obtain ⟨f, rfl⟩ : ∃ f, fuel = f + 1 := ⟨fuel - 1, by omega⟩
  rw [Walk_root fn w root hr hroot [] h0 f]
  have := walkNames_level1 fn hfn w hw root hr f (by omega) e (w.names (w.cwd ++ [root]))
    (fun n hn => ⟨(names_spec w hw _ n hn).1, hdirs n hn⟩) hstep [] []
  rw [List.append_nil] at this
  rw [this]
  simp [walkNames]

/-- Walking a collection in which the walk function fails on the entry `k`,
after succeeding on the entries `pre` before it: the walk ends there, with the
state and the error of that call. -/
theorem Walk_collection_err {E : Type} (fn : WalkFunc (List E)) (hfn : Deep fn) (w : World)
    (hw : w.WF) (root : Text) (hr : validName root)
    (hroot : w.lookup (w.cwd ++ [root]) = some Entry.dir)
    (h0 : fn root (some ⟨true⟩) none (w, []) = some ((w, []), none))
    (fuel : Nat) (hfuel : w.depth ≤ fuel) (e : Text → E)
    (pre : List Text) (k : Text) (post : List Text)
    (hnames : w.names (w.cwd ++ [root]) = pre ++ k :: post)
    (hdirs : ∀ n ∈ pre ++ [k], w.lookup (w.cwd ++ [root, n]) = some Entry.dir)
    (hstep : ∀ n ∈ pre, ∀ acc : List E,
      fn (relText [root, n]) (some ⟨true⟩) none (w, acc) = some ((w, acc ++ [e n]), none))
    (s : World × List E) (err : Err)
    (hk : fn (relText [root, k]) (some ⟨true⟩) none (w, pre.map e) = some (s, some err)) :
    Walk fuel root fn (w, []) = some (s, some err) := by
  have hlen := lookup_some_length w _ _ hroot
  simp only [List.length_append, List.length_cons, List.length_nil] at hlen
  obtain ⟨f, rfl⟩ : ∃ f, fuel = f + 1 := ⟨fuel - 1, by omega⟩
  have hvalid : ∀ n ∈ pre ++ [k], validName n := by
    intro n hn
    apply (names_spec w hw (w.cwd ++ [root]) n _).1
    rw [hnames]
    rcases List.mem_append.mp hn with h | h
    · exact List.mem_append_left _ h
    · exact List.mem_append_right _ (by rw [List.mem_singleton.mp h]; exact List.mem_cons_self _ _)
  rw [Walk_root fn w root hr hroot [] h0 f, hnames]
  rw [walkNames_level1 fn hfn w hw root hr f (by omega) e pre
    (fun n hn => ⟨hvalid n (List.mem_append_left _ hn), hdirs n (List.mem_append_left _ hn)⟩)
    hstep (k :: post) []]
  rw [List.nil_append]
  exact walkNames_level1_err fn w root k hr (hvalid k (by simp)) (hdirs k (by simp)) f
    (by omega) post (pre.map e) s err hk

/-! ### The walk functions of the program -/

theorem countSlash_child (root n : Text) (hr : validName root) (hn : validName n) :
    countSlash (relText [root, n]) = 1 := by
  have := countSlash_relText [root, n] (by simp) (valid_pair root n hr hn)
  simpa using this

theorem Chdir_child (w : World) (root n : Text) (hr : validName root) (hn : validName n)
    (hd : w.lookup (w.cwd ++ [root, n]) = some Entry.dir) :
    Chdir w (relText [root, n]) = (w.cd [root, n], none) :=
  Chdir_relText w [root, n] (by simp) (valid_pair root n hr hn) hd

theorem Stat_single (w : World) (root : Text) (hr : validName root)
    (hroot : w.lookup (w.cwd ++ [root]) = some Entry.dir) :
    Stat w root = .ok ⟨true⟩ := by
  unfold Stat
  rw [resolve_single w root hr, hroot]

theorem tracksWalker_deep (J : Json) (lang : Text) : Deep (tracksWalker J lang) := by
  intro path info s h
  unfold tracksWalker
  simp only
  rw [if_pos (by omega)]

theorem tracksWalker_step (J : Json) (lang : Text) (w : World) (hw : w.WF) (n : Text)
    (hn : validName n) (hd : w.lookup (w.cwd ++ ["tracks".toList, n]) = some Entry.dir)
    (info : Option FileInfo) (acc : List Track) :
    tracksWalker J lang (relText ["tracks".toList, n]) info none (w, acc)
      = some ((w, acc ++ [(Track.Parse J (w.cd ["tracks".toList, n]) lang {}).1]),
          (Track.Parse J (w.cd ["tracks".toList, n]) lang {}).2) := by
  unfold tracksWalker
  simp only [countSlash_child "tracks".toList n (by decide) hn,
    Chdir_child w "tracks".toList n (by decide) hn hd, ne_eq, not_true_eq_false, if_false,
    Chdir_up2 w "tracks".toList n hw.2.2]

theorem storiesWalker_deep (J : Json) (lang : Text) : Deep (storiesWalker J lang) := by
  intro path info s h
  unfold storiesWalker
  simp only
  rw [if_pos (by omega)]

theorem storiesWalker_step (J : Json) (lang : Text) (w : World) (hw : w.WF) (n : Text)
    (hn : validName n) (hd : w.lookup (w.cwd ++ ["stories".toList, n]) = some Entry.dir)
    (info : Option FileInfo) (acc : List Story) :
    storiesWalker J lang (relText ["stories".toList, n]) info none (w, acc)
      = some ((w, acc ++ [(Story.Parse J (w.cd ["stories".toList, n]) lang {}).1]),
          (Story.Parse J (w.cd ["stories".toList, n]) lang {}).2) := by
  unfold storiesWalker
  simp only [countSlash_child "stories".toList n (by decide) hn,
    Chdir_child w "stories".toList n (by decide) hn hd, ne_eq, not_true_eq_false, if_false,
    Chdir_up2 w "stories".toList n hw.2.2]

theorem sectionsWalker_deep (J : Json) (fuel : Nat) (lang : Text) :
    Deep (sectionsWalker J fuel lang) := by
  intro path info s h
  unfold sectionsWalker
  simp only
  rw [if_pos (by omega)]

theorem sectionsWalker_step_ok (J : Json) (fuel : Nat) (lang : Text) (w : World) (hw : w.WF)
    (n : Text) (hn : validName n)
    (hd : w.lookup (w.cwd ++ ["sections".toList, n]) = some Entry.dir)
    (info : Option FileInfo) (acc : List Section) (sec : Section)
    (hp : Section.Parse J fuel (w.cd ["sections".toList, n]) lang {}
      = some (sec, w.cd ["sections".toList, n], none)) :
    sectionsWalker J fuel lang (relText ["sections".toList, n]) info none (w, acc)
      = some ((w, acc ++ [sec]), none) := by
  unfold sectionsWalker
  simp only [countSlash_child "sections".toList n (by decide) hn,
    Chdir_child w "sections".toList n (by decide) hn hd, ne_eq, not_true_eq_false, if_false,
    hp, Chdir_up2 w "sections".toList n hw.2.2]

theorem sectionsWalker_step_err (J : Json) (fuel : Nat) (lang : Text) (w : World)
    (n : Text) (hn : validName n)
    (hd : w.lookup (w.cwd ++ ["sections".toList, n]) = some Entry.dir)
    (info : Option FileInfo) (acc : List Section) (sec : Section) (w' : World) (err : Err)
    (hp : Section.Parse J fuel (w.cd ["sections".toList, n]) lang {}
      = some (sec, w', some err)) :
    sectionsWalker J fuel lang (relText ["sections".toList, n]) info none (w, acc)
      = some ((w', acc), some (Err.wrapped
          ("parse section ".toList ++ relText ["sections".toList, n]) err)) := by
  unfold sectionsWalker
  simp only [countSlash_child "sections".toList n (by decide) hn,
    Chdir_child w "sections".toList n (by decide) hn hd, ne_eq, not_true_eq_false, if_false,
    hp]

theorem placesWalker_deep (J : Json) (fuel : Nat) (lang : Text) :
    Deep (Section.placesWalker J fuel lang) := by
  intro path info s h
  unfold Section.placesWalker
  simp only
  rw [if_pos (by omega)]

theorem placesWalker_step_ok (J : Json) (fuel : Nat) (lang : Text) (w : World) (hw : w.WF)
    (n : Text) (hn : validName n)
    (hd : w.lookup (w.cwd ++ ["places".toList, n]) = some Entry.dir)
    (info : Option FileInfo) (err0 : Option Err) (acc : List Place) (place : Place)
    (hp : Place.Parse J fuel (w.cd ["places".toList, n]) lang {} = some (place, none)) :
    Section.placesWalker J fuel lang (relText ["places".toList, n]) info err0 (w, acc)
      = some ((w, acc ++ [place]), none) := by
  unfold Section.placesWalker
  simp only [countSlash_child "places".toList n (by decide) hn,
    Chdir_child w "places".toList n (by decide) hn hd, ne_eq, not_true_eq_false, if_false,
    hp, Chdir_up2 w "places".toList n hw.2.2]

theorem placesWalker_step_err (J : Json) (fuel : Nat) (lang : Text) (w : World)
    (n : Text) (hn : validName n)
    (hd : w.lookup (w.cwd ++ ["places".toList, n]) = some Entry.dir)
    (info : Option FileInfo) (err0 : Option Err) (acc : List Place) (place : Place) (err : Err)
    (hp : Place.Parse J fuel (w.cd ["places".toList, n]) lang {} = some (place, some err)) :
    Section.placesWalker J fuel lang (relText ["places".toList, n]) info err0 (w, acc)
      = some ((w.cd ["places".toList, n], acc), some (Err.wrapped
          ("error parsing ".toList ++ relText ["places".toList, n]) err)) := by
  unfold Section.placesWalker
  simp only [countSlash_child "places".toList n (by decide) hn,
    Chdir_child w "places".toList n (by decide) hn hd, ne_eq, not_true_eq_false, if_false,
    hp]

/-! ### The collection walkers -/

theorem parseTracks_ok (J : Json) (fuel : Nat) (w : World) (lang : Text) (hw : w.WF)
    (hfuel : w.depth ≤ fuel)
    (hroot : w.lookup (w.cwd ++ ["tracks".toList]) = some Entry.dir)
    (hdirs : ∀ n ∈ w.names (w.cwd ++ ["tracks".toList]),
      w.lookup (w.cwd ++ ["tracks".toList, n]) = some Entry.dir)
    (hok : ∀ n ∈ w.names (w.cwd ++ ["tracks".toList]),
      (Track.Parse J (w.cd ["tracks".toList, n]) lang {}).2 = none) :
    parseTracks J fuel w lang
      = some ((w.names (w.cwd ++ ["tracks".toList])).map
          (fun n => (Track.Parse J (w.cd ["tracks".toList, n]) lang {}).1), w, none) := by
  have hwalk := Walk_collection_ok (tracksWalker J lang) (tracksWalker_deep J lang) w hw
    "tracks".toList (by decide) hroot (by rfl) fuel hfuel
    (fun n => (Track.Parse J (w.cd ["tracks".toList, n]) lang {}).1) hdirs
    (fun n hn acc => by
      rw [tracksWalker_step J lang w hw n (names_spec w hw _ n hn).1 (hdirs n hn), hok n hn])
  unfold parseTracks
  simp only [Stat_single w "tracks".toList (by decide) hroot, hwalk]

theorem parseTracks_err (J : Json) (fuel : Nat) (w : World) (lang : Text) (hw : w.WF)
    (hfuel : w.depth ≤ fuel)
    (hroot : w.lookup (w.cwd ++ ["tracks".toList]) = some Entry.dir)
    (pre : List Text) (k : Text) (post : List Text)
    (hnames : w.names (w.cwd ++ ["tracks".toList]) = pre ++ k :: post)
    (hdirs : ∀ n ∈ pre ++ [k], w.lookup (w.cwd ++ ["tracks".toList, n]) = some Entry.dir)
    (hok : ∀ n ∈ pre, (Track.Parse J (w.cd ["tracks".toList, n]) lang {}).2 = none)
    (err : Err) (hk : (Track.Parse J (w.cd ["tracks".toList, k]) lang {}).2 = some err) :
    parseTracks J fuel w lang
      = some (pre.map (fun n => (Track.Parse J (w.cd ["tracks".toList, n]) lang {}).1)
          ++ [(Track.Parse J (w.cd ["tracks".toList, k]) lang {}).1], w, some err) := by
  have hvalid : ∀ n ∈ pre ++ [k], validName n := by
    intro n hn
    apply (names_spec w hw (w.cwd ++ ["tracks".toList]) n _).1
    rw [hnames]
    rcases List.mem_append.mp hn with h | h
    · exact List.mem_append_left _ h
    · exact List.mem_append_right _ (by rw [List.mem_singleton.mp h]; exact List.mem_cons_self _ _)
  have hwalk := Walk_collection_err (tracksWalker J lang) (tracksWalker_deep J lang) w hw
    "tracks".toList (by decide) hroot (by rfl) fuel hfuel
    (fun n => (Track.Parse J (w.cd ["tracks".toList, n]) lang {}).1) pre k post hnames hdirs
    (fun n hn acc => by
      rw [tracksWalker_step J lang w hw n (hvalid n (List.mem_append_left _ hn))
        (hdirs n (List.mem_append_left _ hn)), hok n hn])
    _ err
    (by rw [tracksWalker_step J lang w hw k (hvalid k (by simp)) (hdirs k (by simp)), hk])
  unfold parseTracks
  simp only [Stat_single w "tracks".toList (by decide) hroot, hwalk]

theorem parseStories_ok (J : Json) (fuel : Nat) (w : World) (lang : Text) (hw : w.WF)
    (hfuel : w.depth ≤ fuel)
    (hroot : w.lookup (w.cwd ++ ["stories".toList]) = some Entry.dir)
    (hdirs : ∀ n ∈ w.names (w.cwd ++ ["stories".toList]),
      w.lookup (w.cwd ++ ["stories".toList, n]) = some Entry.dir)
    (hok : ∀ n ∈ w.names (w.cwd ++ ["stories".toList]),
      (Story.Parse J (w.cd ["stories".toList, n]) lang {}).2 = none) :
    parseStories J fuel w lang
      = some ((w.names (w.cwd ++ ["stories".toList])).map
          (fun n => (Story.Parse J (w.cd ["stories".toList, n]) lang {}).1), w, none) := by
  have hwalk := Walk_collection_ok (storiesWalker J lang) (storiesWalker_deep J lang) w hw
    "stories".toList (by decide) hroot (by rfl) fuel hfuel
    (fun n => (Story.Parse J (w.cd ["stories".toList, n]) lang {}).1) hdirs
    (fun n hn acc => by
      rw [storiesWalker_step J lang w hw n (names_spec w hw _ n hn).1 (hdirs n hn), hok n hn])
  unfold parseStories
  simp only [Stat_single w "stories".toList (by decide) hroot, hwalk]

theorem parseStories_err (J : Json) (fuel : Nat) (w : World) (lang : Text) (hw : w.WF)
    (hfuel : w.depth ≤ fuel)
    (hroot : w.lookup (w.cwd ++ ["stories".toList]) = some Entry.dir)
    (pre : List Text) (k : Text) (post : List Text)
    (hnames : w.names (w.cwd ++ ["stories".toList]) = pre ++ k :: post)
    (hdirs : ∀ n ∈ pre ++ [k], w.lookup (w.cwd ++ ["stories".toList, n]) = some Entry.dir)
    (hok : ∀ n ∈ pre, (Story.Parse J (w.cd ["stories".toList, n]) lang {}).2 = none)
    (err : Err) (hk : (Story.Parse J (w.cd ["stories".toList, k]) lang {}).2 = some err) :
    parseStories J fuel w lang
      = some (pre.map (fun n => (Story.Parse J (w.cd ["stories".toList, n]) lang {}).1)
          ++ [(Story.Parse J (w.cd ["stories".toList, k]) lang {}).1], w, some err) := by
  have hvalid : ∀ n ∈ pre ++ [k], validName n := by
    intro n hn
    apply (names_spec w hw (w.cwd ++ ["stories".toList]) n _).1
    rw [hnames]
    rcases List.mem_append.mp hn with h | h
    · exact List.mem_append_left _ h
    · exact List.mem_append_right _ (by rw [List.mem_singleton.mp h]; exact List.mem_cons_self _ _)
  have hwalk := Walk_collection_err (storiesWalker J lang) (storiesWalker_deep J lang) w hw
    "stories".toList (by decide) hroot (by rfl) fuel hfuel
    (fun n => (Story.Parse J (w.cd ["stories".toList, n]) lang {}).1) pre k post hnames hdirs
    (fun n hn acc => by
      rw [storiesWalker_step J lang w hw n (hvalid n (List.mem_append_left _ hn))
        (hdirs n (List.mem_append_left _ hn)), hok n hn])
    _ err
    (by rw [storiesWalker_step J lang w hw k (hvalid k (by simp)) (hdirs k (by simp)), hk])
  unfold parseStories
  simp only [Stat_single w "stories".toList (by decide) hroot, hwalk]

theorem parseSections_ok (J : Json) (fuel : Nat) (w : World) (lang : Text) (hw : w.WF)
    (hfuel : w.depth ≤ fuel)
    (hroot : w.lookup (w.cwd ++ ["sections".toList]) = some Entry.dir)
    (hdirs : ∀ n ∈ w.names (w.cwd ++ ["sections".toList]),
      w.lookup (w.cwd ++ ["sections".toList, n]) = some Entry.dir)
    (sec : Text → Section)
    (hok : ∀ n ∈ w.names (w.cwd ++ ["sections".toList]),
      Section.Parse J fuel (w.cd ["sections".toList, n]) lang {}
        = some (sec n, w.cd ["sections".toList, n], none)) :
    parseSections J fuel w lang
      = some ((w.names (w.cwd ++ ["sections".toList])).map sec, w, none) := by
  have hwalk := Walk_collection_ok (sectionsWalker J fuel lang) (sectionsWalker_deep J fuel lang)
    w hw "sections".toList (by decide) hroot (by rfl) fuel hfuel sec hdirs
    (fun n hn acc => sectionsWalker_step_ok J fuel lang w hw n (names_spec w hw _ n hn).1
      (hdirs n hn) _ acc (sec n) (hok n hn))
  unfold parseSections
  simp only [hwalk]

theorem parseSections_err (J : Json) (fuel : Nat) (w : World) (lang : Text) (hw : w.WF)
    (hfuel : w.depth ≤ fuel)
    (hroot : w.lookup (w.cwd ++ ["sections".toList]) = some Entry.dir)
    (pre : List Text) (k : Text) (post : List Text)
    (hnames : w.names (w.cwd ++ ["sections".toList]) = pre ++ k :: post)
    (hdirs : ∀ n ∈ pre ++ [k], w.lookup (w.cwd ++ ["sections".toList, n]) = some Entry.dir)
    (sec : Text → Section)
    (hok : ∀ n ∈ pre, Section.Parse J fuel (w.cd ["sections".toList, n]) lang {}
      = some (sec n, w.cd ["sections".toList, n], none))
    (sk : Section) (w' : World) (err : Err)
    (hk : Section.Parse J fuel (w.cd ["sections".toList, k]) lang {} = some (sk, w', some err)) :
    parseSections J fuel w lang
      = some (pre.map sec, w', some (Err.wrapped "walk sections".toList
          (Err.wrapped ("parse section ".toList ++ relText ["sections".toList, k]) err))) := by
  have hvalid : ∀ n ∈ pre ++ [k], validName n := by
    intro n hn
    apply (names_spec w hw (w.cwd ++ ["sections".toList]) n _).1
    rw [hnames]
    rcases List.mem_append.mp hn with h | h
    · exact List.mem_append_left _ h
    · exact List.mem_append_right _ (by rw [List.mem_singleton.mp h]; exact List.mem_cons_self _ _)
  have hwalk := Walk_collection_err (sectionsWalker J fuel lang)
    (sectionsWalker_deep J fuel lang) w hw "sections".toList (by decide) hroot (by rfl) fuel
    hfuel sec pre k post hnames hdirs
    (fun n hn acc => sectionsWalker_step_ok J fuel lang w hw n
      (hvalid n (List.mem_append_left _ hn)) (hdirs n (List.mem_append_left _ hn)) _ acc (sec n)
      (hok n hn))
    _ _
    (sectionsWalker_step_err J fuel lang w k (hvalid k (by simp)) (hdirs k (by simp)) _ _ sk w'
      err hk)
  unfold parseSections
  simp only [hwalk]

theorem Section_Parse_places_ok (J : Json) (fuel : Nat) (w : World) (lang : Text)
    (hw : w.WF) (hfuel : w.depth ≤ fuel) (s : Section) (name quickInfo data : Text)
    (h1 : readFromFile w ("content/".toList ++ lang ++ "/name.txt".toList) = .ok name)
    (h2 : readFromFile w ("content/".toList ++ lang ++ "/quick_info.txt".toList) = .ok quickInfo)
    (h3 : readFromFile w "data.json".toList = .ok data)
    (hroot : w.lookup (w.cwd ++ ["places".toList]) = some Entry.dir)
    (hdirs : ∀ n ∈ w.names (w.cwd ++ ["places".toList]),
      w.lookup (w.cwd ++ ["places".toList, n]) = some Entry.dir)
    (place : Text → Place)
    (hok : ∀ n ∈ w.names (w.cwd ++ ["places".toList]),
      Place.Parse J fuel (w.cd ["places".toList, n]) lang {} = some (place n, none)) :
    Section.Parse J fuel w lang s
      = some ({ (J.unmarshalSection data { s with Name := name, QuickInfo := quickInfo }).1
                with Places := (w.names (w.cwd ++ ["places".toList])).map place }, w, none) := by
  have hwalk := Walk_collection_ok (Section.placesWalker J fuel lang)
    (placesWalker_deep J fuel lang) w hw "places".toList (by decide) hroot (by rfl) fuel hfuel
    place hdirs
    (fun n hn acc => placesWalker_step_ok J fuel lang w hw n (names_spec w hw _ n hn).1
      (hdirs n hn) _ _ acc (place n) (hok n hn))
  unfold Section.Parse
  simp only [h1, h2, h3, hwalk]

theorem Section_Parse_places_err (J : Json) (fuel : Nat) (w : World) (lang : Text)
    (hw : w.WF) (hfuel : w.depth ≤ fuel) (s : Section) (name quickInfo data : Text)
    (h1 : readFromFile w ("content/".toList ++ lang ++ "/name.txt".toList) = .ok name)
    (h2 : readFromFile w ("content/".toList ++ lang ++ "/quick_info.txt".toList) = .ok quickInfo)
    (h3 : readFromFile w "data.json".toList = .ok data)
    (hroot : w.lookup (w.cwd ++ ["places".toList]) = some Entry.dir)
    (pre : List Text) (k : Text) (post : List Text)
    (hnames : w.names (w.cwd ++ ["places".toList]) = pre ++ k :: post)
    (hdirs : ∀ n ∈ pre ++ [k], w.lookup (w.cwd ++ ["places".toList, n]) = some Entry.dir)
    (place : Text → Place)
    (hok : ∀ n ∈ pre, Place.Parse J fuel (w.cd ["places".toList, n]) lang {}
      = some (place n, none))
    (pk : Place) (err : Err)
    (hk : Place.Parse J fuel (w.cd ["places".toList, k]) lang {} = some (pk, some err)) :
    Section.Parse J fuel w lang s
      = some ({ (J.unmarshalSection data { s with Name := name, QuickInfo := quickInfo }).1
                with Places := pre.map place }, w.cd ["places".toList, k],
          some (Err.wrapped ("error parsing ".toList ++ relText ["places".toList, k]) err)) := by
  have hvalid : ∀ n ∈ pre ++ [k], validName n := by
    intro n hn
    apply (names_spec w hw (w.cwd ++ ["places".toList]) n _).1
    rw [hnames]
    rcases List.mem_append.mp hn with h | h
    · exact List.mem_append_left _ h
    · exact List.mem_append_right _ (by rw [List.mem_singleton.mp h]; exact List.mem_cons_self _ _)
  have hwalk := Walk_collection_err (Section.placesWalker J fuel lang)
    (placesWalker_deep J fuel lang) w hw "places".toList (by decide) hroot (by rfl) fuel hfuel
    place pre k post hnames hdirs
    (fun n hn acc => placesWalker_step_ok J fuel lang w hw n
      (hvalid n (List.mem_append_left _ hn)) (hdirs n (List.mem_append_left _ hn)) _ _ acc
      (place n) (hok n hn))
    _ _
    (placesWalker_step_err J fuel lang w k (hvalid k (by simp)) (hdirs k (by simp)) _ _ _ pk
      err hk)
  unfold Section.Parse
  simp only [h1, h2, h3, hwalk]

/-! ### A place whose loader never returns -/

theorem placesWalker_step_none (J : Json) (fuel : Nat) (lang : Text) (w : World)
    (n : Text) (hn : validName n)
    (hd : w.lookup (w.cwd ++ ["places".toList, n]) = some Entry.dir)
    (info : Option FileInfo) (err0 : Option Err) (acc : List Place)
    (hp : Place.Parse J fuel (w.cd ["places".toList, n]) lang {} = none) :
    Section.placesWalker J fuel lang (relText ["places".toList, n]) info err0 (w, acc)
      = none := by
  unfold Section.placesWalker
  simp only [countSlash_child "places".toList n (by decide) hn,
    Chdir_child w "places".toList n (by decide) hn hd, ne_eq, not_true_eq_false, if_false,
    hp]

theorem walk_child_none {σ : Type} (fn : WalkFunc σ) (w : World)
    (root n : Text) (hr : validName root) (hn : validName n)
    (hd : w.lookup (w.cwd ++ [root, n]) = some Entry.dir) (f : Nat) (a : σ)
    (hstep : fn (relText [root, n]) (some ⟨true⟩) none (w, a) = none) :
    walk fn f (relText [root, n]) ⟨true⟩ (w, a) = none := by
  cases f with
  | zero => rfl
  | succ g =>
    unfold walk
    simp only [Bool.true_eq_false, if_false,
      readDirNames_relText w [root, n] (by simp) (valid_pair root n hr hn) hd, hstep]

/-- When the loader of the first place of a section never returns, neither does
`Section.Parse`, whatever the fuel. -/
theorem Section_Parse_place_never_returns (J : Json) (w : World) (lang : Text)
    (s : Section) (name quickInfo data : Text)
    (h1 : readFromFile w ("content/".toList ++ lang ++ "/name.txt".toList) = .ok name)
    (h2 : readFromFile w ("content/".toList ++ lang ++ "/quick_info.txt".toList) = .ok quickInfo)
    (h3 : readFromFile w "data.json".toList = .ok data)
    (hroot : w.lookup (w.cwd ++ ["places".toList]) = some Entry.dir)
    (k : Text) (post : List Text)
    (hnames : w.names (w.cwd ++ ["places".toList]) = k :: post)
    (hk : validName k)
    (hdk : w.lookup (w.cwd ++ ["places".toList, k]) = some Entry.dir)
    (hp : ∀ fuel : Nat, Place.Parse J fuel (w.cd ["places".toList, k]) lang {} = none) :
    ∀ fuel : Nat, Section.Parse J fuel w lang s = none := by
  intro fuel
  have hwalk : Walk fuel "places".toList (Section.placesWalker J fuel lang) (w, []) = none := by
    cases fuel with
    | zero =>
      have hl : Lstat w "places".toList = .ok ⟨true⟩ := by
        have := Lstat_relText w ["places".toList] (by simp) (by decide)
        rw [relText_singleton, hroot] at this
        exact this
      unfold Walk
      simp only [hl]
      rfl
    | succ f =>
      rw [Walk_root (Section.placesWalker J (f + 1) lang) w "places".toList (by decide) hroot []
        (by rfl) f, hnames]
      unfold walkNames
      simp only [Join_child "places".toList k (by decide) hk,
        Lstat_child w "places".toList k (by decide) hk hdk,
        walk_child_none (Section.placesWalker J (f + 1) lang) w "places".toList k (by decide) hk
          hdk f [] (placesWalker_step_none J (f + 1) lang w k hk hdk _ _ [] (hp (f + 1)))]
  unfold Section.Parse
  simp only [h1, h2, h3, hwalk]

/-! ### Localized fields -/

theorem ReadFromFile_file (w : World) (comps : List Text) (h : comps ≠ [])
    (hv : ∀ c ∈ comps, validName c) (content : Text)
    (hf : w.lookup (w.cwd ++ comps) = some (Entry.file content)) :
    ReadFromFile w (relText comps) = .ok content := by
  unfold ReadFromFile Open
  rw [entryAt_relText w comps h hv, hf]
  rfl

theorem read_lang_file (w : World) (lang file content : Text) (hl : validName lang)
    (hfv : validName file)
    (hf : w.lookup (w.cwd ++ [lang, file]) = some (Entry.file content)) :
    readFromFile w (lang ++ '/' :: file) = .ok (TrimSuffix content ['\n']) := by
  apply readFromFile_ok
  have := ReadFromFile_file w [lang, file] (by simp) (valid_pair lang file hl hfv) content hf
  simpa [relText, List.intercalate] using this

theorem read_content_file (w : World) (lang file content : Text) (hl : validName lang)
    (hfv : validName file)
    (hf : w.lookup (w.cwd ++ ["content".toList, lang, file]) = some (Entry.file content)) :
    readFromFile w ("content/".toList ++ lang ++ '/' :: file)
      = .ok (TrimSuffix content ['\n']) := by
  apply readFromFile_ok
  have hv : ∀ c ∈ ["content".toList, lang, file], validName c := by
    intro c hc
    simp only [List.mem_cons, List.mem_singleton, List.not_mem_nil, or_false] at hc
    rcases hc with rfl | rfl | rfl
    · decide
    · exact hl
    · exact hfv
  have := ReadFromFile_file w ["content".toList, lang, file] (by simp) hv content hf
  simpa [relText, List.intercalate] using this

theorem read_data_json (w : World) (content : Text)
    (hf : w.lookup (w.cwd ++ ["data.json".toList]) = some (Entry.file content)) :
    readFromFile w "data.json".toList = .ok (TrimSuffix content ['\n']) := by
  apply readFromFile_ok
  have := ReadFromFile_file w ["data.json".toList] (by simp) (by decide) content hf
  simpa [relText, List.intercalate] using this

theorem textLoop_fields (w : World) (lang : Text) (i : Nat) :
    ∀ (fuel : Nat) (p p' : Place) (err : Option Err),
      Place.textLoop w lang i fuel p = some (p', err) →
      p'.Name = p.Name ∧ p'.QuickInfo = p.QuickInfo ∧ p'.Overview = p.Overview := by
  intro fuel
  induction fuel with
  | zero => intro p p' err h; simp [Place.textLoop] at h
  | succ n ih =>
    intro p p' err h
    unfold Place.textLoop at h
    simp only at h
    split at h
    · split at h
      · simp only [Option.some.injEq, Prod.mk.injEq] at h
        rw [← h.1]
        exact ⟨rfl, rfl, rfl⟩
      · split at h
        · simp only [Option.some.injEq, Prod.mk.injEq] at h
          rw [← h.1]
          exact ⟨rfl, rfl, rfl⟩
        · exact (fun r => ⟨r.1, r.2.1, r.2.2⟩) (ih _ _ _ h)
    · split at h
      · simp only [Option.some.injEq, Prod.mk.injEq] at h
        rw [← h.1]
        exact ⟨rfl, rfl, rfl⟩
      · exact (fun r => ⟨r.1, r.2.1, r.2.2⟩) (ih _ _ _ h)

theorem textLoop_no_text (w : World) (lang : Text) (hl : validName lang) (fuel : Nat)
    (p : Place)
    (h0 : w.lookup (w.cwd ++ ["content".toList, lang, "text_0".toList]) = none) :
    Place.textLoop w lang 0 (fuel + 1) p = some (p, none) := by
  have hv : ∀ c ∈ ["content".toList, lang, "text_0".toList], validName c := by
    intro c hc
    simp only [List.mem_cons, List.mem_singleton, List.not_mem_nil, or_false] at hc
    rcases hc with rfl | rfl | rfl
    · decide
    · exact hl
    · decide
  have hp : "content/".toList ++ lang ++ "/".toList ++ ("text_".toList ++ Sprint 0)
      = relText ["content".toList, lang, "text_0".toList] := by
    have hs : Sprint 0 = "0".toList := by decide
    rw [hs]
    simp [relText, List.intercalate]
  have ho : Open w (relText ["content".toList, lang, "text_0".toList])
      = .error (Err.notExist "open".toList (relText ["content".toList, lang, "text_0".toList])) := by
    unfold Open
    rw [entryAt_relText w _ (by simp) hv, h0]
  unfold Place.textLoop
  simp only [hp, ho, IsNotExist, if_true]

theorem Meta_Parse_fields (J : Json) (w : World) (lang : Text)
    (hJ : J.keepsText) (now : Nat) (m : Meta) (name data : Text)
    (h1 : readFromFile w (lang ++ "/name.txt".toList) = .ok name)
    (h2 : readFromFile w "data.json".toList = .ok data)
    (hvalid : ∀ r, (J.unmarshalMeta data r).2 = none) :
    (Meta.Parse J now w lang m).2 = none ∧ (Meta.Parse J now w lang m).1.RegionName = name := by
  unfold Meta.Parse
  simp only [h1, h2]
  have hk := (hJ data).1 { m with GeneratedAt := UTC (Round now Minute), RegionName := name }
  have hv := hvalid { m with GeneratedAt := UTC (Round now Minute), RegionName := name }
  cases hdec : J.unmarshalMeta data
      { m with GeneratedAt := UTC (Round now Minute), RegionName := name } with
  | mk m' e =>
    rw [hdec] at hk hv
    simp only at hk hv
    subst hv
    exact ⟨rfl, hk⟩

theorem Track_Parse_fields (J : Json) (w : World) (lang : Text)
    (hJ : J.keepsText) (t : Track) (name overview quickInfo data : Text)
    (h1 : readFromFile w (lang ++ "/name.txt".toList) = .ok name)
    (h2 : readFromFile w (lang ++ "/overview.txt".toList) = .ok overview)
    (h3 : readFromFile w (lang ++ "/quick_info.txt".toList) = .ok quickInfo)
    (h4 : readFromFile w "data.json".toList = .ok data)
    (hvalid : ∀ r, (J.unmarshalTrack data r).2 = none) :
    (Track.Parse J w lang t).2 = none ∧ (Track.Parse J w lang t).1.Name = name ∧
      (Track.Parse J w lang t).1.Overview = overview ∧
      (Track.Parse J w lang t).1.QuickInfo = quickInfo := by
  unfold Track.Parse
  simp only [h1, h2, h3, h4]
  have hk := (hJ data).2.2.2.1
    { t with Name := name, Overview := overview, QuickInfo := quickInfo }
  have hv := hvalid { t with Name := name, Overview := overview, QuickInfo := quickInfo }
  exact ⟨congrArg (Option.map Err.json) hv, hk.1, hk.2.2, hk.2.1⟩

theorem Story_Parse_fields (J : Json) (w : World) (lang : Text)
    (hJ : J.keepsText) (s : Story) (name data : Text)
    (h1 : readFromFile w (lang ++ "/name.txt".toList) = .ok name)
    (h2 : readFromFile w "data.json".toList = .ok data)
    (hvalid : ∀ r, (J.unmarshalStory data r).2 = none) :
    (Story.Parse J w lang s).2 = none ∧ (Story.Parse J w lang s).1.Name = name := by
  unfold Story.Parse
  simp only [h1, h2]
  have hk := (hJ data).2.2.2.2.1 { s with Name := name }.toStoryData
  have hv := hvalid { s with Name := name }.toStoryData
  cases hdec : J.unmarshalStory data { s with Name := name }.toStoryData with
  | mk d e =>
    rw [hdec] at hk hv
    simp only at hk hv
    subst hv
    simp only
    refine ⟨trivial, ?_⟩
    rw [(Story_makeImagesPaths_eq w Compressed _).2.2]
    exact hk

theorem Dayroom_Parse_fields (J : Json) (w : World) (lang : Text)
    (hJ : J.keepsText) (d : Dayroom) (name overview quickInfo data : Text)
    (h1 : readFromFile w ("content/".toList ++ lang ++ "/name.txt".toList) = .ok name)
    (h2 : readFromFile w ("content/".toList ++ lang ++ "/overview.txt".toList) = .ok overview)
    (h3 : readFromFile w ("content/".toList ++ lang ++ "/quick_info.txt".toList)
      = .ok quickInfo)
    (h4 : readFromFile w "data.json".toList = .ok data)
    (hvalid : ∀ r, (J.unmarshalDayroom data r).2 = none) :
    (Dayroom.Parse J w lang d).2 = none ∧ (Dayroom.Parse J w lang d).1.Name = name ∧
      (Dayroom.Parse J w lang d).1.Overview = overview ∧
      (Dayroom.Parse J w lang d).1.QuickInfo = quickInfo := by
  unfold Dayroom.Parse
  simp only [h1, h2, h3, h4]
  have hk := (hJ data).2.2.2.2.2
    { d with Name := name, Overview := overview, QuickInfo := quickInfo }
  have hv := hvalid { d with Name := name, Overview := overview, QuickInfo := quickInfo }
  cases hdec : J.unmarshalDayroom data
      { d with Name := name, Overview := overview, QuickInfo := quickInfo } with
  | mk d' e =>
    rw [hdec] at hk hv
    simp only at hk hv
    subst hv
    exact ⟨rfl, hk.1, hk.2.2, hk.2.1⟩

theorem Place_Parse_fields (J : Json) (w : World) (lang : Text)
    (hJ : J.keepsText) (fuel : Nat) (p p' : Place) (name quickInfo overview : Text)
    (h1 : readFromFile w ("content/".toList ++ lang ++ "/name.txt".toList) = .ok name)
    (h2 : readFromFile w ("content/".toList ++ lang ++ "/quick_info.txt".toList)
      = .ok quickInfo)
    (h3 : readFromFile w ("content/".toList ++ lang ++ "/overview.txt".toList) = .ok overview)
    (h : Place.Parse J fuel w lang p = some (p', none)) :
    p'.Name = name ∧ p'.QuickInfo = quickInfo ∧ p'.Overview = overview := by
  obtain ⟨name', quickInfo', overview', data, p3, d, e1, e2, e3, hloop, _, hdec, hp⟩ :=
    Place_Parse_ok J fuel w lang p p' h
  rw [h1] at e1
  rw [h2] at e2
  rw [h3] at e3
  simp only [Except.ok.injEq] at e1 e2 e3
  subst e1 e2 e3
  have hf := textLoop_fields w lang 0 fuel _ _ _ hloop
  simp only at hf
  have hk := (hJ data).2.2.1 p3.toPlaceData
  rw [hdec] at hk
  simp only at hk
  have hpd : p'.toPlaceData = d := by
    rw [hp, (Place_makeImagesPaths_eq w Compressed _).2.2]
  have e : ∀ q : Place, q.Name = q.toPlaceData.Name ∧ q.QuickInfo = q.toPlaceData.QuickInfo ∧
      q.Overview = q.toPlaceData.Overview := fun q => ⟨rfl, rfl, rfl⟩
  rw [(e p').1, (e p').2.1, (e p').2.2, hpd, hk.1, hk.2.1, hk.2.2]
  exact hf

theorem Place_Parse_no_text (J : Json) (w : World) (lang : Text) (hl : validName lang)
    (fuel : Nat) (hfuel : 0 < fuel) (p : Place) (name quickInfo overview data : Text)
    (h1 : readFromFile w ("content/".toList ++ lang ++ "/name.txt".toList) = .ok name)
    (h2 : readFromFile w ("content/".toList ++ lang ++ "/quick_info.txt".toList)
      = .ok quickInfo)
    (h3 : readFromFile w ("content/".toList ++ lang ++ "/overview.txt".toList) = .ok overview)
    (h0 : w.lookup (w.cwd ++ ["content".toList, lang, "text_0".toList]) = none)
    (h4 : readFromFile w "data.json".toList = .ok data)
    (hvalid : ∀ r, (J.unmarshalPlace data r).2 = none) :
    ∃ p', Place.Parse J fuel w lang p = some (p', none) := by
  obtain ⟨f, rfl⟩ : ∃ f, fuel = f + 1 := ⟨fuel - 1, by omega⟩
  unfold Place.Parse
  simp only [h1, h2, h3, textLoop_no_text w lang hl f _ h0, h4]
  have hv := hvalid
    { p with Name := name, QuickInfo := quickInfo, Overview := overview }.toPlaceData
  cases hdec : J.unmarshalPlace data
      { p with Name := name, QuickInfo := quickInfo, Overview := overview }.toPlaceData with
  | mk d e =>
    rw [hdec] at hv
    simp only at hv
    subst hv
    exact ⟨_, rfl⟩

theorem Section_Parse_fields (J : Json) (w : World) (lang : Text)
    (hJ : J.keepsText) (fuel : Nat) (s s' : Section) (w' : World) (err : Option Err)
    (name quickInfo : Text)
    (h1 : readFromFile w ("content/".toList ++ lang ++ "/name.txt".toList) = .ok name)
    (h2 : readFromFile w ("content/".toList ++ lang ++ "/quick_info.txt".toList)
      = .ok quickInfo)
    (h : Section.Parse J fuel w lang s = some (s', w', err)) :
    s'.Name = name ∧ s'.QuickInfo = quickInfo := by
  unfold Section.Parse at h
  simp only [h1, h2] at h
  cases h3 : readFromFile w "data.json".toList with
  | error e =>
    simp only [h3, Option.some.injEq, Prod.mk.injEq] at h
    rw [← h.1]
    exact ⟨rfl, rfl⟩
  | ok data =>
    simp only [h3] at h
    have hk := (hJ data).2.1 { s with Name := name, QuickInfo := quickInfo }
    generalize hwalk : Walk fuel "places".toList (Section.placesWalker J fuel lang) (w, []) = r
      at h
    cases r with
    | none => simp at h
    | some r =>
      obtain ⟨⟨w2, places⟩, err2⟩ := r
      simp only [Option.some.injEq, Prod.mk.injEq] at h
      rw [← h.1]
      exact hk

theorem decodeBy_keeps {α β : Type} (table : List (String × (α → α))) (f : α → β)
    (hf : ∀ kv ∈ table, ∀ r, f (kv.2 r) = f r) (data : Text) (r : α) :
    f (decodeBy table data r).1 = f r := by
  rcases decodeBy_fst table data r with h | ⟨kv, hkv, h⟩
  · rw [h]
  · rw [h]
    exact hf kv hkv r

theorem exampleJson_keepsText : exampleJson.keepsText := by
  intro data
  refine ⟨fun m => ?_, fun s => ⟨?_, ?_⟩, fun p => ⟨?_, ?_, ?_⟩, fun t => ⟨?_, ?_, ?_⟩,
    fun s => ?_, fun d => ⟨?_, ?_, ?_⟩⟩
  all_goals
    apply decodeBy_keeps
    intro kv hkv r
    simp only [List.mem_cons, List.mem_singleton, List.not_mem_nil, or_false] at hkv
    rcases hkv with rfl | rfl <;> rfl

/-! ## C1: the text block reader -/

/-- C1. On a stream whose reads fail only with end-of-stream, `ReadTextualData`
returns no error, the header is line 1 and the body is line 3 of the text (cut at
newlines, so without the trailing newline), line 2 is dropped, and a line the
stream does not have is empty. -/
theorem ReadTextualData_eof_lines (file : Reader) (filename : Text)
    (hfile : file.fail.all IsEOF = true) :
    ReadTextualData file filename = (lineOf file.data 0, lineOf file.data 2, none) := by
  obtain ⟨data, f⟩ := file
  obtain ⟨r1, e1, s1, t1, k1⟩ := ReadString_eof data f hfile
  obtain ⟨r2, e2, s2, _, k2⟩ := ReadString_eof r1 f hfile
  obtain ⟨r3, e3, _, t3, _⟩ := ReadString_eof r2 f hfile
  unfold ReadTextualData lineOf
  simp only [e1, s1, e2, s2, e3, t1, t3]
  rw [k2 0, k1 1]

theorem ReadTextualData_eof_lines_witness :
    ReadTextualData ⟨"Header\n".toList, none⟩ "text_0".toList = ("Header".toList, [], none) ∧
      ReadTextualData ⟨"Title\n///\nBody text\nmore".toList, some Err.eof⟩ "text_0".toList
        = ("Title".toList, "Body text".toList, none) :=
  ⟨(ReadTextualData_eof_lines ⟨"Header\n".toList, none⟩ "text_0".toList (by decide)).trans
      (by decide),
    (ReadTextualData_eof_lines ⟨"Title\n///\nBody text\nmore".toList, some Err.eof⟩
      "text_0".toList (by decide)).trans (by decide)⟩

/-! ## C7: the generation timestamp -/

theorem Round_Minute (t : Nat) :
    Round t Minute % Minute = 0 ∧ 2 * Round t Minute ≤ 2 * t + Minute ∧
      2 * t < 2 * Round t Minute + Minute := by
  have hM : Minute = 60000000000 := by decide
  have hq := Nat.div_add_mod t 60000000000
  have hlt := Nat.mod_lt t (show 0 < 60000000000 by decide)
  unfold Round
  rw [hM]
  simp only [show (60000000000 : Nat) ≠ 0 by decide, if_false]
  by_cases h : t % 60000000000 + t % 60000000000 < 60000000000
  · simp only [h, if_true]
    have e : t - t % 60000000000 = 60000000000 * (t / 60000000000) := by omega
    rw [e]
    exact ⟨Nat.mul_mod_right _ _, by omega, by omega⟩
  · simp only [h, if_false]
    have e : t + (60000000000 - t % 60000000000) = 60000000000 * (t / 60000000000 + 1) := by
      omega
    rw [e]
    exact ⟨Nat.mul_mod_right _ _, by omega, by omega⟩

/-- C7, as the code has it. `Meta.Parse` sets `GeneratedAt` to the current
instant rounded to the nearest minute (half a minute rounds up), whenever
data.json does not define generated_at: a whole number of minutes, at most 30 s
after `now` and less than 30 s before it. -/
theorem Meta_Parse_GeneratedAt_nearest (J : Json) (now : Nat) (w : World) (lang : Text)
    (m : Meta)
    (hJ : ∀ data m', (J.unmarshalMeta data m').1.GeneratedAt = m'.GeneratedAt) :
    (Meta.Parse J now w lang m).1.GeneratedAt % Minute = 0 ∧
      2 * (Meta.Parse J now w lang m).1.GeneratedAt ≤ 2 * now + Minute ∧
      2 * now < 2 * (Meta.Parse J now w lang m).1.GeneratedAt + Minute := by
  have hg : (Meta.Parse J now w lang m).1.GeneratedAt = Round now Minute := by
    unfold Meta.Parse
    cases readFromFile w (lang ++ "/name.txt".toList) with
    | error e => rfl
    | ok name =>
      cases readFromFile w "data.json".toList with
      | error e => rfl
      | ok data =>
        simp only
        have := hJ data { m with GeneratedAt := UTC (Round now Minute), RegionName := name }
        revert this
        cases J.unmarshalMeta data
          { m with GeneratedAt := UTC (Round now Minute), RegionName := name } with
        | mk m' e =>
          cases e <;> (intro h; exact h)
  rw [hg]
  exact Round_Minute now

theorem exampleJson_keeps_GeneratedAt (data : Text) (m : Meta) :
    (exampleJson.unmarshalMeta data m).1.GeneratedAt = m.GeneratedAt := by
  rcases decodeBy_fst _ data m with h | ⟨kv, hkv, h⟩
  · exact congrArg Meta.GeneratedAt h
  · have h2 : (exampleJson.unmarshalMeta data m).1 = kv.2 m := h
    rw [h2]
    simp only [List.mem_cons, List.mem_singleton, List.not_mem_nil, or_false] at hkv
    rcases hkv with rfl | rfl <;> rfl

theorem Meta_Parse_GeneratedAt_nearest_witness :
    (Meta.Parse exampleJson 45000000000 regionMeta "en".toList {}).1.GeneratedAt % Minute = 0 ∧
      2 * (Meta.Parse exampleJson 45000000000 regionMeta "en".toList {}).1.GeneratedAt
        ≤ 2 * 45000000000 + Minute ∧
      2 * 45000000000
        < 2 * (Meta.Parse exampleJson 45000000000 regionMeta "en".toList {}).1.GeneratedAt
          + Minute :=
  Meta_Parse_GeneratedAt_nearest exampleJson 45000000000 regionMeta "en".toList {}
    exampleJson_keeps_GeneratedAt

/-- C7 fails as stated: 45 s past the minute, with a data.json that does not
define generated_at, `Meta.Parse` succeeds and `GeneratedAt` is the next full
minute, later than the current instant. -/
theorem Meta_Parse_GeneratedAt_not_rounded_down :
    (Meta.Parse exampleJson 45000000000 regionMeta "en".toList {}).2 = none ∧
      (Meta.Parse exampleJson 45000000000 regionMeta "en".toList {}).1.GeneratedAt
        = 60000000000 ∧
      ¬ ((Meta.Parse exampleJson 45000000000 regionMeta "en".toList {}).1.GeneratedAt
        ≤ 45000000000) := by
  decide

/-! ## C2: the numbered text blocks of a place -/

/-- C2 at the failing input. In the place `joe` with `text_0` present and
`text_1` absent (n = 1), `Place.Parse` does not return, whatever the number of
loop rounds allowed: the index is never advanced, so `text_0` is read again and
again. -/
theorem Place_Parse_text_0_never_returns :
    ∀ fuel : Nat, Place.Parse exampleJson fuel joeWithText "en".toList {} = none := by
  intro fuel
  exact Place_Parse_same_file exampleJson fuel joeWithText "en".toList {}
    "Joe".toList "Burgers".toList "Best burgers".toList
    ⟨"History\n---\nFounded 1990\n".toList, none⟩
    (by rfl) (by rfl) (by rfl) (by rfl) (by rfl)

/-! ## C3: malformed data.json -/

/-- C3 at the failing input. The section's data.json holds `{`, which the
decoder rejects, and `Section.Parse` still returns no error: the error of
`json.Unmarshal` is replaced by the result of the places walk. -/
theorem Section_Parse_drops_json_error :
    ReadFromFile brokenSection "data.json".toList = .ok "\x7b".toList ∧
      (∀ s : Section, (exampleJson.unmarshalSection "\x7b".toList s).2
        = some "invalid character".toList) ∧
      ∀ fuel : Nat,
        (Section.Parse exampleJson fuel brokenSection "en".toList {}).map (fun r => r.2.2)
          = some none := by
  refine ⟨by rfl, fun s => by rfl, fun fuel => ?_⟩
  rw [Section_Parse_places_missing exampleJson fuel brokenSection "en".toList {}
    "Food".toList "Eat well".toList "\x7b".toList (by rfl) (by rfl) (by rfl)
    (by decide)]
  rfl

/-! ## C10: a collection root that does not exist -/

/-- C10 fails as stated: in a region root without `sections/`, `parseSections`
returns the empty sequence together with an error. -/
theorem parseSections_missing_root_is_error :
    emptyRegion.lookup (emptyRegion.cwd ++ ["sections".toList]) = none ∧
      parseSections exampleJson 8 emptyRegion "en".toList
        = some ([], emptyRegion, some (Err.wrapped "walk sections".toList
            (Err.wrapped "parse section sections".toList
              (Err.notExist "lstat".toList "sections".toList)))) := by
  decide

/-- C10, as the code has it. When the collection root does not exist,
`parseTracks`, `parseStories` and the places walk of `Section.Parse` give the
empty sequence and no error (and leave the working directory alone);
`parseSections` gives the empty sequence together with an error. -/
theorem missing_collection_root (J : Json) (fuel : Nat) (w : World) (lang : Text) :
    (w.lookup (w.cwd ++ ["tracks".toList]) = none →
        parseTracks J fuel w lang = some ([], w, none)) ∧
      (w.lookup (w.cwd ++ ["stories".toList]) = none →
        parseStories J fuel w lang = some ([], w, none)) ∧
      (∀ (s : Section) (name quickInfo data : Text),
        ReadFromFile w ("content/".toList ++ lang ++ "/name.txt".toList) = .ok name →
        ReadFromFile w ("content/".toList ++ lang ++ "/quick_info.txt".toList) = .ok quickInfo →
        ReadFromFile w "data.json".toList = .ok data →
        w.lookup (w.cwd ++ ["places".toList]) = none →
        ∃ s', Section.Parse J fuel w lang s = some (s', w, none) ∧ s'.Places = []) ∧
      (w.lookup (w.cwd ++ ["sections".toList]) = none →
        ∃ err, parseSections J fuel w lang = some ([], w, some err)) :=
  ⟨parseTracks_missing J fuel w lang, parseStories_missing J fuel w lang,
    fun s _ _ _ h1 h2 h3 hp =>
      ⟨_, Section_Parse_places_missing J fuel w lang s _ _ _ (readFromFile_ok _ _ _ h1)
        (readFromFile_ok _ _ _ h2) (readFromFile_ok _ _ _ h3) hp, rfl⟩,
    fun h => ⟨_, parseSections_missing J fuel w lang h⟩⟩

theorem missing_collection_root_witness :
    (parseTracks exampleJson 8 emptyRegion "en".toList = some ([], emptyRegion, none)) ∧
      (parseStories exampleJson 8 emptyRegion "en".toList = some ([], emptyRegion, none)) ∧
      (∃ s', Section.Parse exampleJson 8 brokenSection "en".toList {}
          = some (s', brokenSection, none) ∧ s'.Places = []) ∧
      (∃ err, parseSections exampleJson 8 emptyRegion "en".toList
          = some ([], emptyRegion, some err)) :=
  ⟨(missing_collection_root exampleJson 8 emptyRegion "en".toList).1 (by decide),
    (missing_collection_root exampleJson 8 emptyRegion "en".toList).2.1 (by decide),
    (missing_collection_root exampleJson 8 brokenSection "en".toList).2.2.1 {}
      "Food\n".toList "Eat well\n".toList "\x7b".toList
      (by rfl) (by rfl) (by rfl) (by decide),
    (missing_collection_root exampleJson 8 emptyRegion "en".toList).2.2.2 (by decide)⟩

/-! ## C6: derived image paths follow the image identifiers -/

/-- The part of the invariant that the code keeps: when `os.Getwd` answers,
after `Parse` has succeeded on a fresh Place or Story `ImagesPaths()` has the
length of `Images` and lists, in order, the path computed from each identifier,
and `makeImagesPaths` returns no error and the same paths whatever files
exist. -/
theorem ImagesPaths_follow_Images (J : Json) (fuel : Nat) (w : World) (lang : Text)
    (hwd : w.getwdErr = none) :
    (∀ p' : Place, Place.Parse J fuel w lang {} = some (p', none) →
        p'.ImagesPaths.length = p'.Images.length ∧
        p'.ImagesPaths = p'.Images.map (imagePathOf (cwdText w) Compressed)) ∧
      (∀ s' : Story, Story.Parse J w lang {} = (s', none) →
        s'.ImagesPaths.length = s'.Images.length ∧
        s'.ImagesPaths = s'.Images.map (imagePathOf (cwdText w) Compressed)) ∧
      (∀ (files' : List (Path × Entry)) (quality : Quality) (p : Place),
        (Place.makeImagesPaths w quality p).2 = none ∧
        Place.makeImagesPaths { w with files := files' } quality p
          = (Place.makeImagesPaths w quality p)) := by
  refine ⟨fun p' h => ?_, fun s' h => ?_, fun files' quality p => ?_⟩
  · have := Place_Parse_imagesPaths J fuel w lang {} p' h
    have e : p'.ImagesPaths = p'.Images.map (imagePathOf (cwdText w) Compressed) := by
      simpa [Place.ImagesPaths, hwd] using this
    exact ⟨by rw [e, List.length_map], e⟩
  · have := Story_Parse_imagesPaths J w lang {} s' h
    have e : s'.ImagesPaths = s'.Images.map (imagePathOf (cwdText w) Compressed) := by
      simpa [Story.ImagesPaths, hwd] using this
    exact ⟨by rw [e, List.length_map], e⟩
  · obtain ⟨a1, a2, a3⟩ := Place_makeImagesPaths_eq w quality p
    obtain ⟨b1, b2, b3⟩ := Place_makeImagesPaths_eq { w with files := files' } quality p
    have hc : cwdText { w with files := files' } = cwdText w := rfl
    have hg : ({ w with files := files' } : World).getwdErr = w.getwdErr := rfl
    rw [hc, hg] at b2
    rw [hg] at b1
    refine ⟨a1.trans hwd, ?_⟩
    apply Prod.ext
    · cases hx : (Place.makeImagesPaths { w with files := files' } quality p).1 with
      | mk dx ix =>
        cases hy : (Place.makeImagesPaths w quality p).1 with
        | mk dy iy =>
          rw [hx] at b2 b3
          rw [hy] at a2 a3
          simp only at a2 a3 b2 b3
          rw [a2, a3, b2, b3]
    · rw [a1, b1]

/-- C6 at the failing input. The place `joe` (image `joe1`) and the story `myth`
(image `myth1`) are parsed while `os.Getwd` fails: `makeImagesPaths` returns that
error before its loop, `Parse` drops it and returns no error, and
`ImagesPaths()` is empty although `Images` holds one identifier. -/
theorem Parse_succeeds_without_image_paths :
    Getwd joeNoGetwd = .error (Err.syscall "getwd".toList "file name too long".toList) ∧
      (Place.Parse exampleJson 12 joeNoGetwd "en".toList {}).map
          (fun r => (r.1.Images, r.1.ImagesPaths, r.2))
        = some (["joe1".toList], [], none) ∧
      ((Story.Parse exampleJson mythNoGetwd "en".toList {}).1.Images,
          (Story.Parse exampleJson mythNoGetwd "en".toList {}).1.ImagesPaths,
          (Story.Parse exampleJson mythNoGetwd "en".toList {}).2)
        = (["myth1".toList], [], none) :=
  ⟨by rfl, by decide, by decide⟩

/-! ## C8: which entries the collection walkers load -/

/-- C8 fails as stated: `tracks/` holds one plain file and no directory, and
`parseTracks` still runs the loader for that file (in the region root, where the
failed `Chdir` left it) and returns one track; the two `..` steps afterwards
leave the process in `/`. -/
theorem loader_runs_on_plain_file :
    looseFile.names (looseFile.cwd ++ ["tracks".toList]) = ["README.md".toList] ∧
      looseFile.lookup (looseFile.cwd ++ ["tracks".toList, "README.md".toList])
        = some (Entry.file "notes".toList) ∧
      parseTracks exampleJson 12 looseFile "en".toList
        = some ([{ Name := "Stray".toList, Overview := "Overview".toList,
                   QuickInfo := "Info".toList }],
            { looseFile with cwd := [] }, none) := by
  decide

/-- C8, as the code has it. In a well-formed tree, for a collection root whose
entries are all directories on which the loader succeeds (for sections:
succeeds and is back in the section's directory), each walker returns exactly
one entity per entry of the root, in the order of the directory listing, loaded
in that entry's directory; nothing deeper is loaded. The walk functions never
look at the kind of an entry: a plain file at the first level is treated like a
directory. -/
theorem walkers_load_first_level (J : Json) (fuel : Nat) (w : World) (lang : Text)
    (hw : w.WF) (hfuel : w.depth ≤ fuel) :
    (w.lookup (w.cwd ++ ["tracks".toList]) = some Entry.dir →
      (∀ n ∈ w.names (w.cwd ++ ["tracks".toList]),
        w.lookup (w.cwd ++ ["tracks".toList, n]) = some Entry.dir) →
      (∀ n ∈ w.names (w.cwd ++ ["tracks".toList]),
        (Track.Parse J (w.cd ["tracks".toList, n]) lang {}).2 = none) →
      parseTracks J fuel w lang
        = some ((w.names (w.cwd ++ ["tracks".toList])).map
            (fun n => (Track.Parse J (w.cd ["tracks".toList, n]) lang {}).1), w, none)) ∧
    (w.lookup (w.cwd ++ ["stories".toList]) = some Entry.dir →
      (∀ n ∈ w.names (w.cwd ++ ["stories".toList]),
        w.lookup (w.cwd ++ ["stories".toList, n]) = some Entry.dir) →
      (∀ n ∈ w.names (w.cwd ++ ["stories".toList]),
        (Story.Parse J (w.cd ["stories".toList, n]) lang {}).2 = none) →
      parseStories J fuel w lang
        = some ((w.names (w.cwd ++ ["stories".toList])).map
            (fun n => (Story.Parse J (w.cd ["stories".toList, n]) lang {}).1), w, none)) ∧
    (∀ sec : Text → Section,
      w.lookup (w.cwd ++ ["sections".toList]) = some Entry.dir →
      (∀ n ∈ w.names (w.cwd ++ ["sections".toList]),
        w.lookup (w.cwd ++ ["sections".toList, n]) = some Entry.dir) →
      (∀ n ∈ w.names (w.cwd ++ ["sections".toList]),
        Section.Parse J fuel (w.cd ["sections".toList, n]) lang {}
          = some (sec n, w.cd ["sections".toList, n], none)) →
      parseSections J fuel w lang
        = some ((w.names (w.cwd ++ ["sections".toList])).map sec, w, none)) ∧
    (∀ (s : Section) (place : Text → Place) (name quickInfo data : Text),
      ReadFromFile w ("content/".toList ++ lang ++ "/name.txt".toList) = .ok name →
      ReadFromFile w ("content/".toList ++ lang ++ "/quick_info.txt".toList) = .ok quickInfo →
      ReadFromFile w "data.json".toList = .ok data →
      w.lookup (w.cwd ++ ["places".toList]) = some Entry.dir →
      (∀ n ∈ w.names (w.cwd ++ ["places".toList]),
        w.lookup (w.cwd ++ ["places".toList, n]) = some Entry.dir) →
      (∀ n ∈ w.names (w.cwd ++ ["places".toList]),
        Place.Parse J fuel (w.cd ["places".toList, n]) lang {} = some (place n, none)) →
      ∃ s', Section.Parse J fuel w lang s = some (s', w, none) ∧
        s'.Places = (w.names (w.cwd ++ ["places".toList])).map place) ∧
    (∀ (path : Text) (info info' : Option FileInfo) (err : Option Err),
      (∀ s, tracksWalker J lang path info err s = tracksWalker J lang path info' err s) ∧
      (∀ s, storiesWalker J lang path info err s = storiesWalker J lang path info' err s) ∧
      (∀ s, sectionsWalker J fuel lang path info err s
        = sectionsWalker J fuel lang path info' err s) ∧
      (∀ s, Section.placesWalker J fuel lang path info err s
        = Section.placesWalker J fuel lang path info' err s)) := by
  refine ⟨parseTracks_ok J fuel w lang hw hfuel, parseStories_ok J fuel w lang hw hfuel,
    fun sec hroot hdirs hok => parseSections_ok J fuel w lang hw hfuel hroot hdirs sec hok,
    fun s place name quickInfo data h1 h2 h3 hroot hdirs hok =>
      ⟨_, Section_Parse_places_ok J fuel w lang hw hfuel s _ _ _ (readFromFile_ok _ _ _ h1)
        (readFromFile_ok _ _ _ h2) (readFromFile_ok _ _ _ h3) hroot hdirs place hok, rfl⟩,
    fun path info info' err => ⟨fun _ => rfl, fun _ => rfl, fun _ => rfl, fun _ => rfl⟩⟩

theorem walkers_load_first_level_witness :
    parseTracks exampleJson 12 region "en".toList = some ([lakeLoaded], region, none) ∧
      parseStories exampleJson 12 region "en".toList = some ([mythLoaded], region, none) ∧
      parseSections exampleJson 12 region "en".toList = some ([foodLoaded], region, none) ∧
      (∃ s', Section.Parse exampleJson 12 regionFood "en".toList {}
          = some (s', regionFood, none) ∧
        s'.Places = (regionFood.names (regionFood.cwd ++ ["places".toList])).map
          (fun _ => joeLoaded)) :=
  ⟨((walkers_load_first_level exampleJson 12 region "en".toList (by decide) (by decide)).1
      (by decide) (by decide) (by decide)).trans (by decide),
    ((walkers_load_first_level exampleJson 12 region "en".toList (by decide) (by decide)).2.1
      (by decide) (by decide) (by decide)).trans (by decide),
    ((walkers_load_first_level exampleJson 12 region "en".toList (by decide) (by decide)).2.2.1
      (fun _ => foodLoaded) (by decide) (by decide) (by decide)).trans (by decide),
    (walkers_load_first_level exampleJson 12 regionFood "en".toList (by decide)
      (by decide)).2.2.2.1 {} (fun _ => joeLoaded) "Food\n".toList "Eat well\n".toList
      "\x7b\"id\":\"food\"\x7d".toList (by rfl) (by rfl) (by rfl) (by decide) (by decide)
      (by decide)⟩

/-! ## C4: what a walker returns when a child fails -/

/-- C4 fails as stated: in the broken region `parseTracks` returns, with the
error, the track loaded before the failure and the half-filled failing one;
`parseSections` returns, with the error, the section loaded before. -/
theorem walkers_keep_loaded_entities :
    parseTracks exampleJson 12 brokenRegion "en".toList
        = some ([ { Name := "Lake".toList, Overview := "Overview".toList,
                    QuickInfo := "Info".toList },
                  { Name := "Moor".toList } ],
            brokenRegion, some (openFailed "en/overview.txt")) ∧
      (parseSections exampleJson 12 brokenRegion "en".toList).map
          (fun r => (r.1, r.2.2.isSome)) = some ([brokenArt], true) := by
  decide

/-- C4, as the code has it. In a well-formed tree, when the loader succeeds on
the entries `pre` of a collection root and fails on the next entry `k` (all of
them directories), the walk ends at `k`, whatever follows it, and the walker
returns the error together with the entities loaded from `pre`, in order;
`parseTracks` and `parseStories` add the failing entity as far as it was
filled, `parseSections` and the places walk of `Section.Parse` do not. -/
theorem walkers_return_entities_before_failure (J : Json) (fuel : Nat) (w : World) (lang : Text)
    (hw : w.WF) (hfuel : w.depth ≤ fuel) :
    (∀ (pre : List Text) (k : Text) (post : List Text) (err : Err),
      w.lookup (w.cwd ++ ["tracks".toList]) = some Entry.dir →
      w.names (w.cwd ++ ["tracks".toList]) = pre ++ k :: post →
      (∀ n ∈ pre ++ [k], w.lookup (w.cwd ++ ["tracks".toList, n]) = some Entry.dir) →
      (∀ n ∈ pre, (Track.Parse J (w.cd ["tracks".toList, n]) lang {}).2 = none) →
      (Track.Parse J (w.cd ["tracks".toList, k]) lang {}).2 = some err →
      parseTracks J fuel w lang
        = some (pre.map (fun n => (Track.Parse J (w.cd ["tracks".toList, n]) lang {}).1)
            ++ [(Track.Parse J (w.cd ["tracks".toList, k]) lang {}).1], w, some err)) ∧
    (∀ (pre : List Text) (k : Text) (post : List Text) (err : Err),
      w.lookup (w.cwd ++ ["stories".toList]) = some Entry.dir →
      w.names (w.cwd ++ ["stories".toList]) = pre ++ k :: post →
      (∀ n ∈ pre ++ [k], w.lookup (w.cwd ++ ["stories".toList, n]) = some Entry.dir) →
      (∀ n ∈ pre, (Story.Parse J (w.cd ["stories".toList, n]) lang {}).2 = none) →
      (Story.Parse J (w.cd ["stories".toList, k]) lang {}).2 = some err →
      parseStories J fuel w lang
        = some (pre.map (fun n => (Story.Parse J (w.cd ["stories".toList, n]) lang {}).1)
            ++ [(Story.Parse J (w.cd ["stories".toList, k]) lang {}).1], w, some err)) ∧
    (∀ (pre : List Text) (k : Text) (post : List Text) (sec : Text → Section)
        (sk : Section) (w' : World) (err : Err),
      w.lookup (w.cwd ++ ["sections".toList]) = some Entry.dir →
      w.names (w.cwd ++ ["sections".toList]) = pre ++ k :: post →
      (∀ n ∈ pre ++ [k], w.lookup (w.cwd ++ ["sections".toList, n]) = some Entry.dir) →
      (∀ n ∈ pre, Section.Parse J fuel (w.cd ["sections".toList, n]) lang {}
        = some (sec n, w.cd ["sections".toList, n], none)) →
      Section.Parse J fuel (w.cd ["sections".toList, k]) lang {} = some (sk, w', some err) →
      ∃ err', parseSections J fuel w lang = some (pre.map sec, w', some err')) ∧
    (∀ (pre : List Text) (k : Text) (post : List Text) (s : Section) (place : Text → Place)
        (pk : Place) (err : Err) (name quickInfo data : Text),
      ReadFromFile w ("content/".toList ++ lang ++ "/name.txt".toList) = .ok name →
      ReadFromFile w ("content/".toList ++ lang ++ "/quick_info.txt".toList) = .ok quickInfo →
      ReadFromFile w "data.json".toList = .ok data →
      w.lookup (w.cwd ++ ["places".toList]) = some Entry.dir →
      w.names (w.cwd ++ ["places".toList]) = pre ++ k :: post →
      (∀ n ∈ pre ++ [k], w.lookup (w.cwd ++ ["places".toList, n]) = some Entry.dir) →
      (∀ n ∈ pre, Place.Parse J fuel (w.cd ["places".toList, n]) lang {}
        = some (place n, none)) →
      Place.Parse J fuel (w.cd ["places".toList, k]) lang {} = some (pk, some err) →
      ∃ s' err', Section.Parse J fuel w lang s
          = some (s', w.cd ["places".toList, k], some err') ∧
        s'.Places = pre.map place) := by
  refine ⟨fun pre k post err hroot hnames hdirs hok hk =>
      parseTracks_err J fuel w lang hw hfuel hroot pre k post hnames hdirs hok err hk,
    fun pre k post err hroot hnames hdirs hok hk =>
      parseStories_err J fuel w lang hw hfuel hroot pre k post hnames hdirs hok err hk,
    fun pre k post sec sk w' err hroot hnames hdirs hok hk =>
      ⟨_, parseSections_err J fuel w lang hw hfuel hroot pre k post hnames hdirs sec hok sk w'
        err hk⟩,
    fun pre k post s place pk err name quickInfo data h1 h2 h3 hroot hnames hdirs hok hk =>
      ⟨_, _, Section_Parse_places_err J fuel w lang hw hfuel s _ _ _ (readFromFile_ok _ _ _ h1)
        (readFromFile_ok _ _ _ h2) (readFromFile_ok _ _ _ h3) hroot pre k post hnames hdirs
        place hok pk err hk, rfl⟩⟩

set_option maxRecDepth 100000 in
theorem walkers_return_entities_before_failure_witness :
    parseTracks exampleJson 12 brokenRegion "en".toList
        = some ([ { Name := "Lake".toList, Overview := "Overview".toList,
                    QuickInfo := "Info".toList },
                  { Name := "Moor".toList } ],
            brokenRegion, some (openFailed "en/overview.txt")) ∧
      parseStories exampleJson 12 brokenRegion "en".toList
        = some ([ { Name := "Myth".toList }, { Name := "Saga".toList } ],
            brokenRegion, some (openFailed "data.json")) ∧
      (∃ err', parseSections exampleJson 12 brokenRegion "en".toList
        = some (["art".toList].map (fun _ => brokenArt),
            brokenFood.cd ["places".toList, "kim".toList], some err')) ∧
      (∃ s' err', Section.Parse exampleJson 12 brokenFood "en".toList {}
          = some (s', brokenFood.cd ["places".toList, "kim".toList], some err') ∧
        s'.Places = ["joe".toList].map (fun _ => brokenJoe)) :=
  ⟨((walkers_return_entities_before_failure exampleJson 12 brokenRegion "en".toList (by decide)
      (by decide)).1 ["lake".toList] "moor".toList ["peak".toList]
      (openFailed "en/overview.txt") (by decide) (by decide) (by decide) (by decide)
      (by decide)).trans (by decide),
    ((walkers_return_entities_before_failure exampleJson 12 brokenRegion "en".toList (by decide)
      (by decide)).2.1 ["myth".toList] "saga".toList ["tale".toList]
      (openFailed "data.json") (by decide) (by decide) (by decide) (by decide)
      (by decide)).trans (by decide),
    (walkers_return_entities_before_failure exampleJson 12 brokenRegion "en".toList (by decide)
      (by decide)).2.2.1 ["art".toList] "food".toList ["zoo".toList] (fun _ => brokenArt)
      { Name := "Food".toList, QuickInfo := "Info".toList, Places := [brokenJoe] }
      (brokenFood.cd ["places".toList, "kim".toList])
      (Err.wrapped "error parsing places/kim".toList (openFailed "content/en/overview.txt"))
      (by decide) (by decide) (by decide) (by decide) (by decide),
    (walkers_return_entities_before_failure exampleJson 12 brokenFood "en".toList (by decide)
      (by decide)).2.2.2 ["joe".toList] "kim".toList ["lee".toList] {} (fun _ => brokenJoe)
      brokenKim (openFailed "content/en/overview.txt") "Food\n".toList "Info\n".toList
      "\x7b\x7d".toList (by rfl) (by rfl) (by rfl) (by decide) (by decide) (by decide)
      (by decide) (by decide)⟩

/-! ## C5: where the derived image paths point -/

/-- C5 fails as stated: aggregating the region rooted at `/srv/region`, the
place `joe` gets the image path below its own directory, not
`/srv/region/images/compressed/joe1.webp`; and an identifier with a `..` part
does not even stay below `images/compressed`. -/
theorem image_path_not_under_root :
    cwdText region = "/srv/region".toList ∧
      (parseSections exampleJson 12 region "en".toList).map
          (fun r => r.1.map (fun s => s.Places.map Place.ImagesPaths))
        = some [[["/srv/region/sections/food/places/joe/images/compressed/joe1.webp".toList]]] ∧
      "/srv/region/sections/food/places/joe/images/compressed/joe1.webp".toList
        ≠ cwdText region ++ "/images/compressed/".toList ++ "joe1".toList ++ ".webp".toList ∧
      imagePathOf (cwdText region) Compressed "../joe1".toList
        = "/srv/region/images/joe1.webp".toList := by
  decide

/-- C5, as the code has it. The derived path of an image identifier without `/`
is `<dir>/images/compressed/<identifier>.webp`, where `<dir>` is the working
directory of the process when `Parse` runs; the walkers run `Parse` in the
directory of the entity being loaded, so `<dir>` is `<cwd>/places/<entry>`
resp. `<cwd>/stories/<entry>` and not the content root. With the quality
`Original` the tier directory is `original`. When `os.Getwd` fails no path is
derived. -/
theorem image_paths_below_working_directory (J : Json) (fuel : Nat) (w : World) (lang : Text)
    (hw : w.WF) :
    (∀ p' : Place, Place.Parse J fuel w lang {} = some (p', none) →
      (∀ image ∈ p'.Images, '/' ∉ image) →
      p'.ImagesPaths = if w.getwdErr = none then p'.Images.map (fun image =>
        absText (w.cwd ++ ["images".toList, "compressed".toList, image ++ ".webp".toList]))
        else []) ∧
    (∀ s' : Story, Story.Parse J w lang {} = (s', none) →
      (∀ image ∈ s'.Images, '/' ∉ image) →
      s'.ImagesPaths = if w.getwdErr = none then s'.Images.map (fun image =>
        absText (w.cwd ++ ["images".toList, "compressed".toList, image ++ ".webp".toList]))
        else []) ∧
    (∀ p : Place, (∀ image ∈ p.Images, '/' ∉ image) →
      (Place.makeImagesPaths w Original p).1.ImagesPaths = p.ImagesPaths ++
        (if w.getwdErr = none then p.Images.map (fun image =>
          absText (w.cwd ++ ["images".toList, "original".toList, image ++ ".webp".toList]))
          else [])) ∧
    (∀ s : Story, (∀ image ∈ s.Images, '/' ∉ image) →
      (Story.makeImagesPaths w Original s).1.ImagesPaths = s.ImagesPaths ++
        (if w.getwdErr = none then s.Images.map (fun image =>
          absText (w.cwd ++ ["images".toList, "original".toList, image ++ ".webp".toList]))
          else [])) ∧
    (∀ (n : Text) (place : Place) (info : Option FileInfo) (acc : List Place),
      n ∈ w.names (w.cwd ++ ["places".toList]) →
      w.lookup (w.cwd ++ ["places".toList, n]) = some Entry.dir →
      Place.Parse J fuel (w.cd ["places".toList, n]) lang {} = some (place, none) →
      (∀ image ∈ place.Images, '/' ∉ image) →
      Section.placesWalker J fuel lang (relText ["places".toList, n]) info none (w, acc)
          = some ((w, acc ++ [place]), none) ∧
        place.ImagesPaths = if w.getwdErr = none then place.Images.map (fun image =>
          absText (w.cwd ++ ["places".toList, n, "images".toList, "compressed".toList,
            image ++ ".webp".toList])) else []) ∧
    (∀ (n : Text) (story : Story) (info : Option FileInfo) (acc : List Story),
      n ∈ w.names (w.cwd ++ ["stories".toList]) →
      w.lookup (w.cwd ++ ["stories".toList, n]) = some Entry.dir →
      Story.Parse J (w.cd ["stories".toList, n]) lang {} = (story, none) →
      (∀ image ∈ story.Images, '/' ∉ image) →
      storiesWalker J lang (relText ["stories".toList, n]) info none (w, acc)
          = some ((w, acc ++ [story]), none) ∧
        story.ImagesPaths = if w.getwdErr = none then story.Images.map (fun image =>
          absText (w.cwd ++ ["stories".toList, n, "images".toList, "compressed".toList,
            image ++ ".webp".toList])) else []) := by
  have hplace : ∀ (w : World), (∀ c ∈ w.cwd, validName c) → ∀ p' : Place,
      Place.Parse J fuel w lang {} = some (p', none) →
      (∀ image ∈ p'.Images, '/' ∉ image) →
      p'.ImagesPaths = if w.getwdErr = none then p'.Images.map (fun image =>
        absText (w.cwd ++ ["images".toList, "compressed".toList, image ++ ".webp".toList]))
        else [] := by
    intro w hv p' h hplain
    have := Place_Parse_imagesPaths J fuel w lang {} p' h
    simp only [List.nil_append] at this
    rw [Place.ImagesPaths, this]
    exact ite_map_congr _ _ _ _
      (fun image hi => imagePathOf_plain w hv Compressed (by decide) image (hplain image hi))
  have hstory : ∀ (w : World), (∀ c ∈ w.cwd, validName c) → ∀ s' : Story,
      Story.Parse J w lang {} = (s', none) →
      (∀ image ∈ s'.Images, '/' ∉ image) →
      s'.ImagesPaths = if w.getwdErr = none then s'.Images.map (fun image =>
        absText (w.cwd ++ ["images".toList, "compressed".toList, image ++ ".webp".toList]))
        else [] := by
    intro w hv s' h hplain
    have := Story_Parse_imagesPaths J w lang {} s' h
    simp only [List.nil_append] at this
    rw [Story.ImagesPaths, this]
    exact ite_map_congr _ _ _ _
      (fun image hi => imagePathOf_plain w hv Compressed (by decide) image (hplain image hi))
  refine ⟨hplace w hw.2.1, hstory w hw.2.1, ?_, ?_, ?_, ?_⟩
  · intro p hplain
    rw [Place.ImagesPaths, (Place_makeImagesPaths_eq w Original p).2.1, Place.ImagesPaths]
    congr 1
    exact ite_map_congr _ _ _ _
      (fun image hi => imagePathOf_plain w hw.2.1 Original (by decide) image (hplain image hi))
  · intro s hplain
    rw [Story.ImagesPaths, (Story_makeImagesPaths_eq w Original s).2.1, Story.ImagesPaths]
    congr 1
    exact ite_map_congr _ _ _ _
      (fun image hi => imagePathOf_plain w hw.2.1 Original (by decide) image (hplain image hi))
  · intro n place info acc hn hd hp hplain
    have hvn := (names_spec w hw _ n hn).1
    refine ⟨placesWalker_step_ok J fuel lang w hw n hvn hd info none acc place hp, ?_⟩
    have hv' : ∀ c ∈ (w.cd ["places".toList, n]).cwd, validName c := by
      intro c hc
      rcases List.mem_append.mp hc with hc | hc
      · exact hw.2.1 c hc
      · exact valid_pair "places".toList n (by decide) hvn c hc
    have := hplace (w.cd ["places".toList, n]) hv' place hp hplain
    simpa [World.cd] using this
  · intro n story info acc hn hd hp hplain
    have hvn := (names_spec w hw _ n hn).1
    refine ⟨?_, ?_⟩
    · rw [storiesWalker_step J lang w hw n hvn hd info acc, hp]
    · have hv' : ∀ c ∈ (w.cd ["stories".toList, n]).cwd, validName c := by
        intro c hc
        rcases List.mem_append.mp hc with hc | hc
        · exact hw.2.1 c hc
        · exact valid_pair "stories".toList n (by decide) hvn c hc
      have := hstory (w.cd ["stories".toList, n]) hv' story hp hplain
      simpa [World.cd] using this

theorem image_paths_below_working_directory_witness :
    joeLoaded.ImagesPaths = joeLoaded.Images.map (fun image =>
        absText (regionJoe.cwd ++ ["images".toList, "compressed".toList,
          image ++ ".webp".toList])) ∧
      mythLoaded.ImagesPaths = mythLoaded.Images.map (fun image =>
        absText (regionMyth.cwd ++ ["images".toList, "compressed".toList,
          image ++ ".webp".toList])) ∧
      (Place.makeImagesPaths regionJoe Original { Images := ["joe1".toList] }).1.ImagesPaths
        = ["/srv/region/sections/food/places/joe/images/original/joe1.webp".toList] ∧
      (Story.makeImagesPaths regionMyth Original { Images := ["myth1".toList] }).1.ImagesPaths
        = ["/srv/region/stories/myth/images/original/myth1.webp".toList] ∧
      (Section.placesWalker exampleJson 12 "en".toList (relText ["places".toList, "joe".toList])
          none none (regionFood, []) = some ((regionFood, [] ++ [joeLoaded]), none) ∧
        joeLoaded.ImagesPaths = joeLoaded.Images.map (fun image =>
          absText (regionFood.cwd ++ ["places".toList, "joe".toList, "images".toList,
            "compressed".toList, image ++ ".webp".toList]))) ∧
      (storiesWalker exampleJson "en".toList (relText ["stories".toList, "myth".toList])
          none none (region, []) = some ((region, [] ++ [mythLoaded]), none) ∧
        mythLoaded.ImagesPaths = mythLoaded.Images.map (fun image =>
          absText (region.cwd ++ ["stories".toList, "myth".toList, "images".toList,
            "compressed".toList, image ++ ".webp".toList]))) :=
  ⟨((image_paths_below_working_directory exampleJson 12 regionJoe "en".toList (by decide)).1
      joeLoaded (by rfl) (by decide)).trans (by rfl),
    ((image_paths_below_working_directory exampleJson 12 regionMyth "en".toList (by decide)).2.1
      mythLoaded (by rfl) (by decide)).trans (by rfl),
    ((image_paths_below_working_directory exampleJson 12 regionJoe "en".toList
      (by decide)).2.2.1 { Images := ["joe1".toList] } (by decide)).trans (by decide),
    ((image_paths_below_working_directory exampleJson 12 regionMyth "en".toList
      (by decide)).2.2.2.1 { Images := ["myth1".toList] } (by decide)).trans (by decide),
    ⟨((image_paths_below_working_directory exampleJson 12 regionFood "en".toList
      (by decide)).2.2.2.2.1 "joe".toList joeLoaded none [] (by decide) (by decide) (by rfl)
      (by decide)).1,
     (((image_paths_below_working_directory exampleJson 12 regionFood "en".toList
      (by decide)).2.2.2.2.1 "joe".toList joeLoaded none [] (by decide) (by decide) (by rfl)
      (by decide)).2).trans (by rfl)⟩,
    ⟨((image_paths_below_working_directory exampleJson 12 region "en".toList
      (by decide)).2.2.2.2.2 "myth".toList mythLoaded none [] (by decide) (by decide) (by rfl)
      (by decide)).1,
     (((image_paths_below_working_directory exampleJson 12 region "en".toList
      (by decide)).2.2.2.2.2 "myth".toList mythLoaded none [] (by decide) (by decide) (by rfl)
      (by decide)).2).trans (by rfl)⟩⟩

/-! ## C9: localized fields -/

/-- Localized fields where the loaders return. In an entity directory that holds the
loader's text files and a data.json that decodes and defines no localized key,
`Meta.Parse`, `Track.Parse`, `Story.Parse` and `Dayroom.Parse` return no error,
`Place.Parse` returns no error when the place has no `text_0`, `Section.Parse`
returns no error when the section has no `places` directory or when every entry
of it is a directory on which `Place.Parse` succeeds, and every localized field
filled from name.txt, quick_info.txt or overview.txt is the content of that file
without its trailing newline. -/
theorem localized_fields_trimmed (J : Json) (w : World) (lang : Text) (hl : validName lang)
    (hJ : J.keepsText) :
    (∀ (now : Nat) (m : Meta) (name data : Text),
      w.lookup (w.cwd ++ [lang, "name.txt".toList]) = some (Entry.file name) →
      w.lookup (w.cwd ++ ["data.json".toList]) = some (Entry.file data) →
      (∀ r, (J.unmarshalMeta (TrimSuffix data ['\n']) r).2 = none) →
      (Meta.Parse J now w lang m).2 = none ∧
        (Meta.Parse J now w lang m).1.RegionName = TrimSuffix name ['\n']) ∧
    (∀ (t : Track) (name overview quickInfo data : Text),
      w.lookup (w.cwd ++ [lang, "name.txt".toList]) = some (Entry.file name) →
      w.lookup (w.cwd ++ [lang, "overview.txt".toList]) = some (Entry.file overview) →
      w.lookup (w.cwd ++ [lang, "quick_info.txt".toList]) = some (Entry.file quickInfo) →
      w.lookup (w.cwd ++ ["data.json".toList]) = some (Entry.file data) →
      (∀ r, (J.unmarshalTrack (TrimSuffix data ['\n']) r).2 = none) →
      (Track.Parse J w lang t).2 = none ∧
        (Track.Parse J w lang t).1.Name = TrimSuffix name ['\n'] ∧
        (Track.Parse J w lang t).1.Overview = TrimSuffix overview ['\n'] ∧
        (Track.Parse J w lang t).1.QuickInfo = TrimSuffix quickInfo ['\n']) ∧
    (∀ (s : Story) (name data : Text),
      w.lookup (w.cwd ++ [lang, "name.txt".toList]) = some (Entry.file name) →
      w.lookup (w.cwd ++ ["data.json".toList]) = some (Entry.file data) →
      (∀ r, (J.unmarshalStory (TrimSuffix data ['\n']) r).2 = none) →
      (Story.Parse J w lang s).2 = none ∧
        (Story.Parse J w lang s).1.Name = TrimSuffix name ['\n']) ∧
    (∀ (d : Dayroom) (name overview quickInfo data : Text),
      w.lookup (w.cwd ++ ["content".toList, lang, "name.txt".toList])
        = some (Entry.file name) →
      w.lookup (w.cwd ++ ["content".toList, lang, "overview.txt".toList])
        = some (Entry.file overview) →
      w.lookup (w.cwd ++ ["content".toList, lang, "quick_info.txt".toList])
        = some (Entry.file quickInfo) →
      w.lookup (w.cwd ++ ["data.json".toList]) = some (Entry.file data) →
      (∀ r, (J.unmarshalDayroom (TrimSuffix data ['\n']) r).2 = none) →
      (Dayroom.Parse J w lang d).2 = none ∧
        (Dayroom.Parse J w lang d).1.Name = TrimSuffix name ['\n'] ∧
        (Dayroom.Parse J w lang d).1.Overview = TrimSuffix overview ['\n'] ∧
        (Dayroom.Parse J w lang d).1.QuickInfo = TrimSuffix quickInfo ['\n']) ∧
    (∀ (fuel : Nat) (p : Place) (name quickInfo overview : Text),
      w.lookup (w.cwd ++ ["content".toList, lang, "name.txt".toList])
        = some (Entry.file name) →
      w.lookup (w.cwd ++ ["content".toList, lang, "quick_info.txt".toList])
        = some (Entry.file quickInfo) →
      w.lookup (w.cwd ++ ["content".toList, lang, "overview.txt".toList])
        = some (Entry.file overview) →
      (∀ p', Place.Parse J fuel w lang p = some (p', none) →
        p'.Name = TrimSuffix name ['\n'] ∧ p'.QuickInfo = TrimSuffix quickInfo ['\n'] ∧
          p'.Overview = TrimSuffix overview ['\n']) ∧
      (∀ data : Text, 0 < fuel →
        w.lookup (w.cwd ++ ["content".toList, lang, "text_0".toList]) = none →
        w.lookup (w.cwd ++ ["data.json".toList]) = some (Entry.file data) →
        (∀ r, (J.unmarshalPlace (TrimSuffix data ['\n']) r).2 = none) →
        ∃ p', Place.Parse J fuel w lang p = some (p', none))) ∧
    (∀ (fuel : Nat) (s : Section) (name quickInfo data : Text),
      w.lookup (w.cwd ++ ["content".toList, lang, "name.txt".toList])
        = some (Entry.file name) →
      w.lookup (w.cwd ++ ["content".toList, lang, "quick_info.txt".toList])
        = some (Entry.file quickInfo) →
      w.lookup (w.cwd ++ ["data.json".toList]) = some (Entry.file data) →
      (∀ s' w' err, Section.Parse J fuel w lang s = some (s', w', err) →
        s'.Name = TrimSuffix name ['\n'] ∧ s'.QuickInfo = TrimSuffix quickInfo ['\n']) ∧
      (w.lookup (w.cwd ++ ["places".toList]) = none →
        ∃ s', Section.Parse J fuel w lang s = some (s', w, none)) ∧
      (w.WF → w.depth ≤ fuel →
        w.lookup (w.cwd ++ ["places".toList]) = some Entry.dir →
        (∀ n ∈ w.names (w.cwd ++ ["places".toList]),
          w.lookup (w.cwd ++ ["places".toList, n]) = some Entry.dir ∧
          ∃ place, Place.Parse J fuel (w.cd ["places".toList, n]) lang {}
            = some (place, none)) →
        ∃ s', Section.Parse J fuel w lang s = some (s', w, none))) := by
  refine ⟨fun now m name data hn hd hv => ?_, fun t name overview quickInfo data hn ho hq hd hv => ?_,
    fun s name data hn hd hv => ?_, fun d name overview quickInfo data hn ho hq hd hv => ?_,
    fun fuel p name quickInfo overview hn hq ho => ⟨fun p' h => ?_, fun data hfuel h0 hd hv => ?_⟩,
    fun fuel s name quickInfo data hn hq hd => ⟨fun s' w' err h => ?_, fun hp => ?_,
      fun hw hfuel hroot hall => ?_⟩⟩
  · exact Meta_Parse_fields J w lang hJ now m _ _
      (read_lang_file w lang "name.txt".toList name hl (by decide) hn) (read_data_json w data hd) hv
  · exact Track_Parse_fields J w lang hJ t _ _ _ _
      (read_lang_file w lang "name.txt".toList name hl (by decide) hn)
      (read_lang_file w lang "overview.txt".toList overview hl (by decide) ho)
      (read_lang_file w lang "quick_info.txt".toList quickInfo hl (by decide) hq)
      (read_data_json w data hd) hv
  · exact Story_Parse_fields J w lang hJ s _ _
      (read_lang_file w lang "name.txt".toList name hl (by decide) hn) (read_data_json w data hd) hv
  · exact Dayroom_Parse_fields J w lang hJ d _ _ _ _
      (read_content_file w lang "name.txt".toList name hl (by decide) hn)
      (read_content_file w lang "overview.txt".toList overview hl (by decide) ho)
      (read_content_file w lang "quick_info.txt".toList quickInfo hl (by decide) hq)
      (read_data_json w data hd) hv
  · exact Place_Parse_fields J w lang hJ fuel p p' _ _ _
      (read_content_file w lang "name.txt".toList name hl (by decide) hn)
      (read_content_file w lang "quick_info.txt".toList quickInfo hl (by decide) hq)
      (read_content_file w lang "overview.txt".toList overview hl (by decide) ho) h
  · exact Place_Parse_no_text J w lang hl fuel hfuel p _ _ _ _
      (read_content_file w lang "name.txt".toList name hl (by decide) hn)
      (read_content_file w lang "quick_info.txt".toList quickInfo hl (by decide) hq)
      (read_content_file w lang "overview.txt".toList overview hl (by decide) ho) h0
      (read_data_json w data hd) hv
  · exact Section_Parse_fields J w lang hJ fuel s s' w' err _ _
      (read_content_file w lang "name.txt".toList name hl (by decide) hn)
      (read_content_file w lang "quick_info.txt".toList quickInfo hl (by decide) hq) h
  · exact ⟨_, Section_Parse_places_missing J fuel w lang s _ _ _
      (read_content_file w lang "name.txt".toList name hl (by decide) hn)
      (read_content_file w lang "quick_info.txt".toList quickInfo hl (by decide) hq)
      (read_data_json w data hd) hp⟩
  · have hex : ∃ place : Text → Place, ∀ n ∈ w.names (w.cwd ++ ["places".toList]),
        Place.Parse J fuel (w.cd ["places".toList, n]) lang {} = some (place n, none) := by
      refine ⟨fun n => match Place.Parse J fuel (w.cd ["places".toList, n]) lang {} with
        | some (place, _) => place
        | none => {}, fun n hn => ?_⟩
      obtain ⟨place, hplace⟩ := (hall n hn).2
      simp only [hplace]
    obtain ⟨place, hplace⟩ := hex
    exact ⟨_, Section_Parse_places_ok J fuel w lang hw hfuel s _ _ _
      (read_content_file w lang "name.txt".toList name hl (by decide) hn)
      (read_content_file w lang "quick_info.txt".toList quickInfo hl (by decide) hq)
      (read_data_json w data hd) hroot (fun n hn => (hall n hn).1) place hplace⟩

/-- C9 at the failing input. The section `food` follows the documented layout:
name.txt, quick_info.txt and data.json are there, and its one place `joe` holds
its text files, its data.json and one numbered text block `text_0`.
`Section.Parse` does not return there, whatever the fuel: `Place.Parse` on `joe`
never leaves its loop over the numbered text files, so the loader does not
succeed and hands no field to its caller. -/
theorem Section_Parse_never_returns_on_text_block :
    readFromFile foodWithText "content/en/name.txt".toList = .ok "Food".toList ∧
      readFromFile foodWithText "content/en/quick_info.txt".toList = .ok "Eat well".toList ∧
      readFromFile foodWithText "data.json".toList = .ok "\x7b\"id\":\"food\"\x7d".toList ∧
      foodWithText.names (foodWithText.cwd ++ ["places".toList]) = ["joe".toList] ∧
      foodWithText.names (foodWithText.cwd ++ ["places".toList, "joe".toList, "content".toList,
          "en".toList])
        = ["name.txt".toList, "overview.txt".toList, "quick_info.txt".toList,
            "text_0".toList] ∧
      ∀ fuel : Nat, Section.Parse exampleJson fuel foodWithText "en".toList {} = none := by
  refine ⟨by rfl, by rfl, by rfl, by decide, by decide, ?_⟩
  exact Section_Parse_place_never_returns exampleJson foodWithText "en".toList {}
    "Food".toList "Eat well".toList "\x7b\"id\":\"food\"\x7d".toList (by rfl) (by rfl) (by rfl)
    (by decide) "joe".toList [] (by decide) (by decide) (by decide)
    (fun fuel => Place_Parse_same_file exampleJson fuel
      (foodWithText.cd ["places".toList, "joe".toList]) "en".toList {}
      "Joe".toList "Burgers".toList "Best burgers".toList
      ⟨"History\n---\nFounded 1990\n".toList, none⟩
      (by rfl) (by rfl) (by rfl) (by rfl) (by rfl))
end DatabaseTools
